import Mathlib

/-!
Shallow embedding of the recipe-app-api repository (Django/DRF recipe API):
the data model (`core/models.py`), the recipe reconciliation engine
(`recipe/serializers.py`) and the query/filter layer (`recipe/views.py`),
together with theorems settling the specification claims.

Machine integers do not overflow here (Django ids and Python ints are
unbounded), so ids are `Nat` and scalar integers are `Int`.  Python strings
are embedded as Lean `String` except in the e-mail normalization development,
where they are lists of code points (`List Nat`) to keep character-level
reasoning elementary.  The store (database) is explicit state threaded
through every operation.
-/

namespace RecipeApp

/-- `core.models.Tag`: id, name, owning user (user modelled by id). -/
structure Tag where
  id : Nat
  name : String
  user : Nat
deriving DecidableEq, Repr

/-- `core.models.Ingredient` (absent from the `models.py` snapshot under
`src/`, but used by serializers, views and tests).  Modelled from the spec:
"Ingredient: identical shape and lifecycle rules to Tag, distinct entity
type". -/
structure Ingredient where
  id : Nat
  name : String
  user : Nat
deriving DecidableEq, Repr

/-- `core.models.Recipe`: owning user, scalar fields, and the two
many-to-many relations stored as lists of referenced ids.  The
`ingredients` relation is absent from the `models.py` snapshot and is
modelled from the spec ("set of Ingredient references"), mirroring `tags`.
`price` is the fixed-point decimal in hundredths. -/
structure Recipe where
  id : Nat
  user : Nat
  title : String
  times_in_minutes : Int
  price : Int
  description : String
  link : String
  tags : List Nat
  ingredients : List Nat
deriving DecidableEq, Repr

/-- The persistent store: entity tables plus the id sequences. -/
structure Store where
  tags : List Tag
  ingredients : List Ingredient
  recipes : List Recipe
  nextTagId : Nat
  nextIngredientId : Nat
  nextRecipeId : Nat
deriving DecidableEq, Repr

/-- Django `ManyRelatedManager.add`: attaching an id already present in the
relation is a no-op (attachment to a set is idempotent). -/
def m2mAdd (ids : List Nat) (i : Nat) : List Nat :=
  if i ∈ ids then ids else ids ++ [i]

/-- `Tag.objects.get_or_create(user=auth_user, name=...)`: return the first
existing row matching (user, name), else insert a fresh row with the next id
from the sequence. -/
def tagGetOrCreate (s : Store) (user : Nat) (name : String) : Tag × Store :=
  match s.tags.find? (fun t => t.user == user && t.name == name) with
  | some t => (t, s)
  | none =>
      let t : Tag := { id := s.nextTagId, name := name, user := user }
      (t, { s with tags := s.tags ++ [t], nextTagId := s.nextTagId + 1 })

/-- `Ingredient.objects.get_or_create(user=auth_user, name=...)`. -/
def ingredientGetOrCreate (s : Store) (user : Nat) (name : String) :
    Ingredient × Store :=
  match s.ingredients.find? (fun t => t.user == user && t.name == name) with
  | some t => (t, s)
  | none =>
      let t : Ingredient := { id := s.nextIngredientId, name := name, user := user }
      (t, { s with ingredients := s.ingredients ++ [t],
                   nextIngredientId := s.nextIngredientId + 1 })

namespace RecipeSerializer

/-- `RecipeSerializer._get_or_create_tags(tags, recipe)`: for each tag spec
(a validated spec is just a name, since `id` is read-only on
`TagSerializer`), get-or-create the Tag for the authenticated user and
attach it to the recipe's tag set. -/
def get_or_create_tags (tags : List String) (recipe : Recipe) (authUser : Nat)
    (s : Store) : Recipe × Store :=
  tags.foldl
    (fun rs name =>
      let ts := tagGetOrCreate rs.2 authUser name
      ({ rs.1 with tags := m2mAdd rs.1.tags ts.1.id }, ts.2))
    (recipe, s)

/-- `RecipeSerializer._get_or_create_ingredients(ingredients, recipe)`. -/
def get_or_create_ingredients (ingredients : List String) (recipe : Recipe)
    (authUser : Nat) (s : Store) : Recipe × Store :=
  ingredients.foldl
    (fun rs name =>
      let ts := ingredientGetOrCreate rs.2 authUser name
      ({ rs.1 with ingredients := m2mAdd rs.1.ingredients ts.1.id }, ts.2))
    (recipe, s)

end RecipeSerializer

/-- A raw request payload for the recipe endpoints, before serializer
validation.  Every field is optional; it may even carry a `user` key. -/
structure RawRecipePayload where
  title : Option String := none
  times_in_minutes : Option Int := none
  price : Option Int := none
  link : Option String := none
  description : Option String := none
  tags : Option (List String) := none
  ingredients : Option (List String) := none
  user : Option Nat := none
deriving DecidableEq, Repr

/-- `validated_data` produced by `RecipeDetailSerializer`:  exactly the
writable fields of `Meta.fields` (`title`, `times_in_minutes`, `price`,
`link`, `tags`, `ingredients`, plus `description` on the detail
serializer); `id` is read-only and there is no `user` field. -/
structure ValidatedData where
  title : Option String := none
  times_in_minutes : Option Int := none
  price : Option Int := none
  link : Option String := none
  description : Option String := none
  tags : Option (List String) := none
  ingredients : Option (List String) := none
deriving DecidableEq, Repr

/-- DRF `to_internal_value`: keep exactly the serializer's writable fields;
any other key of the raw input (in particular `user`) is dropped. -/
def toInternalValue (raw : RawRecipePayload) : ValidatedData :=
  { title := raw.title
    times_in_minutes := raw.times_in_minutes
    price := raw.price
    link := raw.link
    description := raw.description
    tags := raw.tags
    ingredients := raw.ingredients }

/-- The `for attr, value in validated_data.items(): setattr(instance, attr,
value)` loop of `RecipeSerializer.update`, after `tags` and `ingredients`
were popped: only the keys present in the payload are written. -/
def applyScalars (r : Recipe) (vd : ValidatedData) : Recipe :=
  { r with
    title := vd.title.getD r.title
    times_in_minutes := vd.times_in_minutes.getD r.times_in_minutes
    price := vd.price.getD r.price
    link := vd.link.getD r.link
    description := vd.description.getD r.description }

/-- Replace the row with the saved recipe's id (`instance.save()`). -/
def saveRecipe (s : Store) (r : Recipe) : Store :=
  { s with recipes := s.recipes.map (fun x => if x.id == r.id then r else x) }

namespace RecipeSerializer

/-- `RecipeSerializer.create(validated_data)` with the owner injected by
`RecipeViewSet.perform_create` (`serializer.save(user=self.request.user)`):
pop `tags` / `ingredients` (defaulting to the empty list), create the
Recipe from the scalar fields with owner `authUser`, then reconcile tags
and ingredients. -/
def create (vd : ValidatedData) (authUser : Nat) (s : Store) : Recipe × Store :=
  let tags := vd.tags.getD []
  let ingredients := vd.ingredients.getD []
  let recipe : Recipe :=
    { id := s.nextRecipeId
      user := authUser
      title := vd.title.getD ""
      times_in_minutes := vd.times_in_minutes.getD 0
      price := vd.price.getD 0
      description := vd.description.getD ""
      link := vd.link.getD ""
      tags := []
      ingredients := [] }
  let s0 : Store := { s with recipes := s.recipes ++ [recipe],
                             nextRecipeId := s.nextRecipeId + 1 }
  let rs1 := get_or_create_tags tags recipe authUser s0
  let rs2 := get_or_create_ingredients ingredients rs1.1 authUser rs1.2
  (rs2.1, saveRecipe rs2.2 rs2.1)

/-- `RecipeSerializer.update(inst, validated_data)`: pop `tags` with
default `None` — if present (even as `[]`), clear the relation and
reconcile the given list; if absent, leave it untouched.  Same for
`ingredients`.  Then apply the remaining scalar fields and save. -/
def update (inst : Recipe) (vd : ValidatedData) (authUser : Nat)
    (s : Store) : Recipe × Store :=
  let rs1 :=
    match vd.tags with
    | none => (inst, s)
    | some specs => get_or_create_tags specs { inst with tags := [] } authUser s
  let rs2 :=
    match vd.ingredients with
    | none => rs1
    | some specs =>
        get_or_create_ingredients specs { rs1.1 with ingredients := [] } authUser rs1.2
  let r := applyScalars rs2.1 vd
  (r, saveRecipe rs2.2 r)

end RecipeSerializer

/-- The create endpoint as seen from a raw payload: validation
(`toInternalValue`) followed by `perform_create`. -/
def performCreate (raw : RawRecipePayload) (authUser : Nat) (s : Store) :
    Recipe × Store :=
  RecipeSerializer.create (toInternalValue raw) authUser s

/-- The update endpoint as seen from a raw payload: validation followed by
`serializer.save()` (no extra kwargs on the update path). -/
def performUpdate (inst : Recipe) (raw : RawRecipePayload) (authUser : Nat)
    (s : Store) : Recipe × Store :=
  RecipeSerializer.update inst (toInternalValue raw) authUser s

/-! ### Query/filter layer (`recipe/views.py`) -/

/-- ASCII whitespace as stripped by Python `str.strip()`. -/
def pyIsSpaceChar (c : Char) : Bool :=
  c == ' ' || c == '\t' || c == '\n' || c == '\r' || c == '\x0b' || c == '\x0c'

/-- Python `str.strip()` over the character list of a string. -/
def stripChars (l : List Char) : List Char :=
  ((l.dropWhile pyIsSpaceChar).reverse.dropWhile pyIsSpaceChar).reverse

/-- Decimal digit value of a character, if any. -/
def digitVal? (c : Char) : Option Nat :=
  if 48 ≤ c.toNat ∧ c.toNat ≤ 57 then some (c.toNat - 48) else none

/-- Value of a nonempty all-digit character list. -/
def digitsVal? (cs : List Char) : Option Nat :=
  match cs with
  | [] => none
  | _ =>
      cs.foldl
        (fun acc c => do
          let a ← acc
          let d ← digitVal? c
          some (a * 10 + d))
        (some 0)

/-- Python `int(str)`: optional surrounding whitespace, an optional sign and
a nonempty digit run (digit-grouping underscores are not modelled; no claim
touches them).  `none` is a raised `ValueError`. -/
def parsePyInt (s : String) : Option Int :=
  match stripChars s.toList with
  | '+' :: rest => (digitsVal? rest).map (fun n => (n : Int))
  | '-' :: rest => (digitsVal? rest).map (fun n => -(n : Int))
  | cs => (digitsVal? cs).map (fun n => (n : Int))

/-- `RecipeViewSet._params_to_ints(qs)`:
`[int(str_id) for str_id in qs.split(',')]`. -/
def params_to_ints (qs : String) : Option (List Int) :=
  (qs.splitOn ",").mapM parsePyInt

/-- The SQL join produced by `queryset.filter(tags__id__in=tag_ids)`: one
output row per (recipe row, matching tag reference) pair, so a recipe
referencing several filter ids is duplicated until `distinct()`. -/
def joinTagFilter (rs : List Recipe) (ids : List Int) : List Recipe :=
  rs.flatMap (fun r => (r.tags.filter (fun t : Nat => (t : Int) ∈ ids)).map (fun _ => r))

/-- The join of `queryset.filter(ingredients__id__in=ingredient_ids)`. -/
def joinIngredientFilter (rs : List Recipe) (ids : List Int) : List Recipe :=
  rs.flatMap (fun r => (r.ingredients.filter (fun t : Nat => (t : Int) ∈ ids)).map (fun _ => r))

/-- The row order of `order_by('-id')`. -/
def recipeIdDesc (a b : Recipe) : Prop := b.id ≤ a.id

instance : DecidableRel recipeIdDesc := fun a b => Nat.decLe b.id a.id

instance : IsTotal Recipe recipeIdDesc := ⟨fun a b => Nat.le_total b.id a.id⟩

instance : IsTrans Recipe recipeIdDesc := ⟨fun _ _ _ hab hbc => Nat.le_trans hbc hab⟩

/-- `RecipeViewSet.get_queryset` after the id filters are parsed: apply the
tag join (if a filter was given), the ingredient join (if given), then
`filter(user=...).order_by('-id').distinct()`. -/
def recipeQuerysetPure (recipes : List Recipe) (u : Nat)
    (tagIds ingIds : Option (List Int)) : List Recipe :=
  let q1 := match tagIds with
    | some ids => joinTagFilter recipes ids
    | none => recipes
  let q2 := match ingIds with
    | some ids => joinIngredientFilter q1 ids
    | none => q1
  ((q2.filter (fun r => r.user == u)).insertionSort recipeIdDesc).dedup

/-- Truthiness and parse of an id-filter query parameter: an absent
parameter or the empty string is falsy (`if tags:`) and applies no filter;
otherwise `_params_to_ints` runs (outer `none` = raised `ValueError`). -/
def optParamIds (p : Option String) : Option (Option (List Int)) :=
  match p with
  | none => some none
  | some str => if str = "" then some none else (params_to_ints str).map some

/-- `RecipeViewSet.get_queryset` from the raw query parameters. -/
def recipeGetQueryset (s : Store) (u : Nat)
    (tagsParam ingredientsParam : Option String) : Option (List Recipe) := do
  let tagIds ← optParamIds tagsParam
  let ingIds ← optParamIds ingredientsParam
  some (recipeQuerysetPure s.recipes u tagIds ingIds)

/-- DRF `get_object` on the recipe detail routes: the pk is looked up inside
the user-scoped queryset; a miss is HTTP 404 (there is no separate 403 path,
another user's id is indistinguishable from a missing one). -/
def getObject (s : Store) (u : Nat) (pk : Nat) : Option Recipe :=
  (recipeQuerysetPure s.recipes u none none).find? (fun r => r.id == pk)

/-- `DestroyModelMixin.destroy` on `RecipeViewSet`: 404 leaves the store
unchanged, a hit deletes the row and returns 204. -/
def destroyRecipe (s : Store) (u : Nat) (pk : Nat) : Nat × Store :=
  match getObject s u pk with
  | none => (404, s)
  | some _ => (204, { s with recipes := s.recipes.filter (fun x => !(x.id == pk)) })

/-- The reverse-relation join of `queryset.filter(recipe__isnull=False)`:
one row per (entity, recipe referencing it) pair.  The recipe's owner is
not constrained. -/
def assignedJoin {α : Type} (aid : α → Nat) (rel : Recipe → List Nat)
    (recipes : List Recipe) (attrs : List α) : List α :=
  attrs.flatMap (fun a => (recipes.filter (fun r => aid a ∈ rel r)).map (fun _ => a))

/-- `BaseRecipeAttrViewSet.get_queryset` once the `assigned_only` flag is
known, shared by the Tag and the Ingredient listing: optional assigned
join, then `filter(user=...).order_by('-name').distinct()`. -/
def attrQuerysetPure {α : Type} [DecidableEq α] (aid : α → Nat)
    (aname : α → String) (auser : α → Nat) (rel : Recipe → List Nat)
    (recipes : List Recipe) (attrs : List α) (u : Nat) (assignedOnly : Bool) :
    List α :=
  let q := if assignedOnly then assignedJoin aid rel recipes attrs else attrs
  ((q.filter (fun a => auser a == u)).insertionSort
      (fun a b => aname b ≤ aname a)).dedup

/-- `bool(int(self.request.query_params.get("assigned_only", 0)))`: an
absent parameter defaults to the integer `0`; a present one is a string fed
to `int(...)` (raising on non-integer tokens), then taken by truthiness. -/
def parseAssignedOnly (p : Option String) : Option Bool :=
  match p with
  | none => some false
  | some str => (parsePyInt str).map (fun n => n != 0)

/-- `TagViewSet` listing from the raw `assigned_only` parameter. -/
def tagGetQueryset (s : Store) (u : Nat) (assignedOnlyParam : Option String) :
    Option (List Tag) :=
  (parseAssignedOnly assignedOnlyParam).map
    (fun b => attrQuerysetPure Tag.id Tag.name Tag.user Recipe.tags
        s.recipes s.tags u b)

/-- `IngredientsViewSet` listing from the raw `assigned_only` parameter. -/
def ingredientGetQueryset (s : Store) (u : Nat)
    (assignedOnlyParam : Option String) : Option (List Ingredient) :=
  (parseAssignedOnly assignedOnlyParam).map
    (fun b => attrQuerysetPure Ingredient.id Ingredient.name Ingredient.user
        Recipe.ingredients s.recipes s.ingredients u b)

/-- `RetrieveModelMixin.retrieve` on `RecipeViewSet` (GET detail): only the
lookup; a miss is 404, a hit serializes the object (store untouched). -/
def retrieveRecipeDetail (s : Store) (u : Nat) (pk : Nat) : Nat × Store :=
  match getObject s u pk with
  | none => (404, s)
  | some _ => (200, s)

/-- `UpdateModelMixin.update` on `RecipeViewSet` (PUT/PATCH detail): look
the pk up in the user-scoped queryset, 404 on a miss, otherwise run the
serializer update. -/
def updateRecipeDetail (s : Store) (u : Nat) (pk : Nat) (vd : ValidatedData) :
    Nat × Store :=
  match getObject s u pk with
  | none => (404, s)
  | some inst => (200, (RecipeSerializer.update inst vd u s).2)

/-- DRF `get_object` on the Tag detail routes: the pk is looked up inside
`BaseRecipeAttrViewSet.get_queryset` (a detail request carries no
`assigned_only` parameter, so the flag is off); a miss is HTTP 404, there
is no separate 403 path. -/
def tagGetObject (s : Store) (u : Nat) (pk : Nat) : Option Tag :=
  (attrQuerysetPure Tag.id Tag.name Tag.user Recipe.tags s.recipes s.tags
      u false).find? (fun t => t.id == pk)

/-- `UpdateModelMixin.update` on `TagViewSet` (PUT/PATCH detail):
`TagSerializer`'s only writable field is `name` (`id` is read-only). -/
def updateTagDetail (s : Store) (u : Nat) (pk : Nat) (name? : Option String) :
    Nat × Store :=
  match tagGetObject s u pk with
  | none => (404, s)
  | some _ =>
      (200, { s with tags := (s.tags.map
        (fun x => if x.id == pk then { x with name := name?.getD x.name } else x)) })

/-- `DestroyModelMixin.destroy` on `TagViewSet` (DELETE detail). -/
def destroyTag (s : Store) (u : Nat) (pk : Nat) : Nat × Store :=
  match tagGetObject s u pk with
  | none => (404, s)
  | some _ => (204, { s with tags := s.tags.filter (fun x => !(x.id == pk)) })

/-- DRF `get_object` on the Ingredient detail routes. -/
def ingredientGetObject (s : Store) (u : Nat) (pk : Nat) : Option Ingredient :=
  (attrQuerysetPure Ingredient.id Ingredient.name Ingredient.user
      Recipe.ingredients s.recipes s.ingredients u false).find?
    (fun g => g.id == pk)

/-- `UpdateModelMixin.update` on `IngredientsViewSet` (PUT/PATCH detail). -/
def updateIngredientDetail (s : Store) (u : Nat) (pk : Nat)
    (name? : Option String) : Nat × Store :=
  match ingredientGetObject s u pk with
  | none => (404, s)
  | some _ =>
      (200, { s with ingredients := (s.ingredients.map
        (fun x => if x.id == pk then { x with name := name?.getD x.name } else x)) })

/-- `DestroyModelMixin.destroy` on `IngredientsViewSet` (DELETE detail). -/
def destroyIngredient (s : Store) (u : Nat) (pk : Nat) : Nat × Store :=
  match ingredientGetObject s u pk with
  | none => (404, s)
  | some _ =>
      (204, { s with ingredients := s.ingredients.filter (fun x => !(x.id == pk)) })

/-! ### E-mail normalization (`core/models.py` `UserManager.create_user`)

The e-mail is embedded as its list of code points, so Python's string
operations become elementary list functions. -/

/-- ASCII whitespace code points stripped by Python `str.strip()`. -/
def pyIsSpace (n : Nat) : Bool :=
  n == 32 || n == 9 || n == 10 || n == 13 || n == 11 || n == 12

/-- Python `str.strip()` on code points. -/
def pyStrip (l : List Nat) : List Nat :=
  ((l.dropWhile pyIsSpace).reverse.dropWhile pyIsSpace).reverse

/-- ASCII lower-casing of one code point (Python `str.lower` restricted to
ASCII, which covers the e-mail alphabet exercised by the repository). -/
def lowerCP (n : Nat) : Nat := if 65 ≤ n ∧ n ≤ 90 then n + 32 else n

/-- Python `str.lower()` on code points. -/
def pyLower (l : List Nat) : List Nat := l.map lowerCP

/-- Split at the first occurrence of `c`, if any. -/
def splitAtFirst (c : Nat) : List Nat → Option (List Nat × List Nat)
  | [] => none
  | x :: xs =>
      if x = c then some ([], xs)
      else (splitAtFirst c xs).map (fun p => (x :: p.1, p.2))

/-- Python `l.rsplit(c, 1)` when it yields two parts: split at the last
occurrence of `c`. -/
def rsplit1 (c : Nat) (l : List Nat) : Option (List Nat × List Nat) :=
  (splitAtFirst c l.reverse).map (fun p => (p.2.reverse, p.1.reverse))

/-- Django `BaseUserManager.normalize_email` — framework code pinned by the
repository's own `core/tests/test_models.py` expectations: strip the
address, split at the last `@` (code point 64), lower-case only the domain
part and rebuild; an address without `@` is returned unchanged (the
`ValueError` branch returns the original input). -/
def normalize_email (email : List Nat) : List Nat :=
  match rsplit1 64 (pyStrip email) with
  | none => email
  | some nd => nd.1 ++ 64 :: pyLower nd.2

/-- `UserManager.create_user`, restricted to the stored e-mail value: an
empty (falsy) e-mail raises `ValueError`, otherwise the user row stores the
normalized address. -/
def create_user (email : List Nat) : Except String (List Nat) :=
  if email = [] then Except.error "User must have a email address"
  else Except.ok (normalize_email email)

/-- Code points of a string literal, for concrete test vectors. -/
def strCodes (s : String) : List Nat := s.toList.map Char.toNat

/-! ### Lemmas: many-to-many attach -/

theorem mem_m2mAdd {ids : List Nat} {i j : Nat} :
    i ∈ m2mAdd ids j ↔ i ∈ ids ∨ i = j := by
  unfold m2mAdd
  split
  · rename_i hj
    constructor
    · exact Or.inl
    · rintro (h | rfl)
      · exact h
      · exact hj
  · simp [List.mem_append]

theorem m2mAdd_self (ids : List Nat) (i : Nat) : i ∈ m2mAdd ids i :=
  mem_m2mAdd.mpr (Or.inr rfl)

theorem m2mAdd_mono {ids : List Nat} {i : Nat} (j : Nat) (h : i ∈ ids) :
    i ∈ m2mAdd ids j :=
  mem_m2mAdd.mpr (Or.inl h)

theorem m2mAdd_eq_of_mem {ids : List Nat} {i : Nat} (h : i ∈ ids) :
    m2mAdd ids i = ids := by
  unfold m2mAdd
  exact if_pos h

theorem m2mAdd_nodup {ids : List Nat} {i : Nat} (h : ids.Nodup) :
    (m2mAdd ids i).Nodup := by
  unfold m2mAdd
  split
  · exact h
  · rename_i hi
    simpa [List.nodup_append, h] using hi

/-! ### Lemmas: `get_or_create` on one entity -/

theorem tagGetOrCreate_user (s : Store) (u : Nat) (n : String) :
    (tagGetOrCreate s u n).1.user = u := by
  unfold tagGetOrCreate
  cases hf : s.tags.find? (fun t => t.user == u && t.name == n) with
  | none => rfl
  | some t =>
      have := List.find?_some hf
      simp only [Bool.and_eq_true, beq_iff_eq] at this
      exact this.1

theorem tagGetOrCreate_name (s : Store) (u : Nat) (n : String) :
    (tagGetOrCreate s u n).1.name = n := by
  unfold tagGetOrCreate
  cases hf : s.tags.find? (fun t => t.user == u && t.name == n) with
  | none => rfl
  | some t =>
      have := List.find?_some hf
      simp only [Bool.and_eq_true, beq_iff_eq] at this
      exact this.2

theorem tagGetOrCreate_mem (s : Store) (u : Nat) (n : String) :
    (tagGetOrCreate s u n).1 ∈ (tagGetOrCreate s u n).2.tags := by
  unfold tagGetOrCreate
  cases hf : s.tags.find? (fun t => t.user == u && t.name == n) with
  | none => simp
  | some t => exact List.mem_of_find?_eq_some hf

theorem tagGetOrCreate_tags_mono (s : Store) (u : Nat) (n : String) :
    ∀ t ∈ s.tags, t ∈ (tagGetOrCreate s u n).2.tags := by
  intro t ht
  unfold tagGetOrCreate
  cases s.tags.find? (fun t => t.user == u && t.name == n) with
  | none => simpa using Or.inl ht
  | some _ => exact ht

theorem tagGetOrCreate_ingredients (s : Store) (u : Nat) (n : String) :
    (tagGetOrCreate s u n).2.ingredients = s.ingredients := by
  unfold tagGetOrCreate
  cases s.tags.find? (fun t => t.user == u && t.name == n) <;> rfl

theorem tagGetOrCreate_recipes (s : Store) (u : Nat) (n : String) :
    (tagGetOrCreate s u n).2.recipes = s.recipes := by
  unfold tagGetOrCreate
  cases s.tags.find? (fun t => t.user == u && t.name == n) <;> rfl

theorem tagGetOrCreate_len (s : Store) (u : Nat) (n : String) :
    (tagGetOrCreate s u n).2.tags.length ≤ s.tags.length + 1 := by
  unfold tagGetOrCreate
  cases s.tags.find? (fun t => t.user == u && t.name == n) with
  | none => simp
  | some _ => exact Nat.le_succ_of_le (Nat.le_refl _)

/-- A second `get_or_create` with the same (user, name) returns the same
row and leaves the store untouched. -/
theorem tagGetOrCreate_twice (s : Store) (u : Nat) (n : String) :
    tagGetOrCreate (tagGetOrCreate s u n).2 u n
      = ((tagGetOrCreate s u n).1, (tagGetOrCreate s u n).2) := by
  unfold tagGetOrCreate
  cases hf : s.tags.find? (fun t => t.user == u && t.name == n) with
  | some t => simp [hf]
  | none =>
      simp only [hf]
      rw [List.find?_append, hf]
      simp

theorem ingredientGetOrCreate_user (s : Store) (u : Nat) (n : String) :
    (ingredientGetOrCreate s u n).1.user = u := by
  unfold ingredientGetOrCreate
  cases hf : s.ingredients.find? (fun t => t.user == u && t.name == n) with
  | none => rfl
  | some t =>
      have := List.find?_some hf
      simp only [Bool.and_eq_true, beq_iff_eq] at this
      exact this.1

theorem ingredientGetOrCreate_name (s : Store) (u : Nat) (n : String) :
    (ingredientGetOrCreate s u n).1.name = n := by
  unfold ingredientGetOrCreate
  cases hf : s.ingredients.find? (fun t => t.user == u && t.name == n) with
  | none => rfl
  | some t =>
      have := List.find?_some hf
      simp only [Bool.and_eq_true, beq_iff_eq] at this
      exact this.2

theorem ingredientGetOrCreate_mem (s : Store) (u : Nat) (n : String) :
    (ingredientGetOrCreate s u n).1 ∈ (ingredientGetOrCreate s u n).2.ingredients := by
  unfold ingredientGetOrCreate
  cases hf : s.ingredients.find? (fun t => t.user == u && t.name == n) with
  | none => simp
  | some t => exact List.mem_of_find?_eq_some hf

theorem ingredientGetOrCreate_mono (s : Store) (u : Nat) (n : String) :
    ∀ t ∈ s.ingredients, t ∈ (ingredientGetOrCreate s u n).2.ingredients := by
  intro t ht
  unfold ingredientGetOrCreate
  cases s.ingredients.find? (fun t => t.user == u && t.name == n) with
  | none => simpa using Or.inl ht
  | some _ => exact ht

theorem ingredientGetOrCreate_tags (s : Store) (u : Nat) (n : String) :
    (ingredientGetOrCreate s u n).2.tags = s.tags := by
  unfold ingredientGetOrCreate
  cases s.ingredients.find? (fun t => t.user == u && t.name == n) <;> rfl

theorem ingredientGetOrCreate_recipes (s : Store) (u : Nat) (n : String) :
    (ingredientGetOrCreate s u n).2.recipes = s.recipes := by
  unfold ingredientGetOrCreate
  cases s.ingredients.find? (fun t => t.user == u && t.name == n) <;> rfl

theorem ingredientGetOrCreate_len (s : Store) (u : Nat) (n : String) :
    (ingredientGetOrCreate s u n).2.ingredients.length ≤ s.ingredients.length + 1 := by
  unfold ingredientGetOrCreate
  cases s.ingredients.find? (fun t => t.user == u && t.name == n) with
  | none => simp
  | some _ => exact Nat.le_succ_of_le (Nat.le_refl _)

theorem ingredientGetOrCreate_twice (s : Store) (u : Nat) (n : String) :
    ingredientGetOrCreate (ingredientGetOrCreate s u n).2 u n
      = ((ingredientGetOrCreate s u n).1, (ingredientGetOrCreate s u n).2) := by
  unfold ingredientGetOrCreate
  cases hf : s.ingredients.find? (fun t => t.user == u && t.name == n) with
  | some t => simp [hf]
  | none =>
      simp only [hf]
      rw [List.find?_append, hf]
      simp

/-! ### Lemmas: the reconciliation folds -/

namespace RecipeSerializer

theorem get_or_create_tags_nil (r : Recipe) (u : Nat) (s : Store) :
    get_or_create_tags [] r u s = (r, s) := rfl

theorem get_or_create_tags_cons (n : String) (ns : List String) (r : Recipe)
    (u : Nat) (s : Store) :
    get_or_create_tags (n :: ns) r u s
      = get_or_create_tags ns
          { r with tags := m2mAdd r.tags (tagGetOrCreate s u n).1.id } u
          (tagGetOrCreate s u n).2 := rfl

theorem get_or_create_ingredients_nil (r : Recipe) (u : Nat) (s : Store) :
    get_or_create_ingredients [] r u s = (r, s) := rfl

theorem get_or_create_ingredients_cons (n : String) (ns : List String)
    (r : Recipe) (u : Nat) (s : Store) :
    get_or_create_ingredients (n :: ns) r u s
      = get_or_create_ingredients ns
          { r with ingredients := m2mAdd r.ingredients (ingredientGetOrCreate s u n).1.id } u
          (ingredientGetOrCreate s u n).2 := rfl

/-- The fold only rewrites the recipe's tag set. -/
theorem get_or_create_tags_shape (specs : List String) (u : Nat) :
    ∀ r s, ∃ ids, (get_or_create_tags specs r u s).1 = { r with tags := ids } := by
  induction specs with
  | nil => intro r s; exact ⟨r.tags, rfl⟩
  | cons n ns ih =>
      intro r s
      rw [get_or_create_tags_cons]
      obtain ⟨ids, hids⟩ := ih { r with tags := m2mAdd r.tags (tagGetOrCreate s u n).1.id }
        (tagGetOrCreate s u n).2
      exact ⟨ids, hids⟩

/-- The fold only rewrites the recipe's ingredient set. -/
theorem get_or_create_ingredients_shape (specs : List String) (u : Nat) :
    ∀ r s, ∃ ids, (get_or_create_ingredients specs r u s).1 = { r with ingredients := ids } := by
  induction specs with
  | nil => intro r s; exact ⟨r.ingredients, rfl⟩
  | cons n ns ih =>
      intro r s
      rw [get_or_create_ingredients_cons]
      obtain ⟨ids, hids⟩ := ih
        { r with ingredients := m2mAdd r.ingredients (ingredientGetOrCreate s u n).1.id }
        (ingredientGetOrCreate s u n).2
      exact ⟨ids, hids⟩

/-- Tag rows only accumulate during reconciliation. -/
theorem get_or_create_tags_store_mono (specs : List String) (u : Nat) :
    ∀ r s, ∀ t ∈ s.tags, t ∈ (get_or_create_tags specs r u s).2.tags := by
  induction specs with
  | nil => intro r s t ht; exact ht
  | cons n ns ih =>
      intro r s t ht
      rw [get_or_create_tags_cons]
      exact ih _ _ t (tagGetOrCreate_tags_mono s u n t ht)

theorem get_or_create_ingredients_store_mono (specs : List String) (u : Nat) :
    ∀ r s, ∀ t ∈ s.ingredients,
      t ∈ (get_or_create_ingredients specs r u s).2.ingredients := by
  induction specs with
  | nil => intro r s t ht; exact ht
  | cons n ns ih =>
      intro r s t ht
      rw [get_or_create_ingredients_cons]
      exact ih _ _ t (ingredientGetOrCreate_mono s u n t ht)

/-- Tag reconciliation does not touch the ingredient and recipe tables. -/
theorem get_or_create_tags_store_frame (specs : List String) (u : Nat) :
    ∀ r s, (get_or_create_tags specs r u s).2.ingredients = s.ingredients
      ∧ (get_or_create_tags specs r u s).2.recipes = s.recipes := by
  induction specs with
  | nil => intro r s; exact ⟨rfl, rfl⟩
  | cons n ns ih =>
      intro r s
      rw [get_or_create_tags_cons]
      obtain ⟨h1, h2⟩ := ih { r with tags := m2mAdd r.tags (tagGetOrCreate s u n).1.id }
        (tagGetOrCreate s u n).2
      exact ⟨h1.trans (tagGetOrCreate_ingredients s u n),
             h2.trans (tagGetOrCreate_recipes s u n)⟩

/-- Ingredient reconciliation does not touch the tag and recipe tables. -/
theorem get_or_create_ingredients_store_frame (specs : List String) (u : Nat) :
    ∀ r s, (get_or_create_ingredients specs r u s).2.tags = s.tags
      ∧ (get_or_create_ingredients specs r u s).2.recipes = s.recipes := by
  induction specs with
  | nil => intro r s; exact ⟨rfl, rfl⟩
  | cons n ns ih =>
      intro r s
      rw [get_or_create_ingredients_cons]
      obtain ⟨h1, h2⟩ := ih
        { r with ingredients := m2mAdd r.ingredients (ingredientGetOrCreate s u n).1.id }
        (ingredientGetOrCreate s u n).2
      exact ⟨h1.trans (ingredientGetOrCreate_tags s u n),
             h2.trans (ingredientGetOrCreate_recipes s u n)⟩

theorem get_or_create_tags_snd_ingredients (specs : List String) (u : Nat)
    (r : Recipe) (s : Store) :
    (get_or_create_tags specs r u s).2.ingredients = s.ingredients :=
  (get_or_create_tags_store_frame specs u r s).1

theorem get_or_create_tags_snd_recipes (specs : List String) (u : Nat)
    (r : Recipe) (s : Store) :
    (get_or_create_tags specs r u s).2.recipes = s.recipes :=
  (get_or_create_tags_store_frame specs u r s).2

theorem get_or_create_ingredients_snd_tags (specs : List String) (u : Nat)
    (r : Recipe) (s : Store) :
    (get_or_create_ingredients specs r u s).2.tags = s.tags :=
  (get_or_create_ingredients_store_frame specs u r s).1

theorem get_or_create_ingredients_snd_recipes (specs : List String) (u : Nat)
    (r : Recipe) (s : Store) :
    (get_or_create_ingredients specs r u s).2.recipes = s.recipes :=
  (get_or_create_ingredients_store_frame specs u r s).2

/-- Ids already attached stay attached. -/
theorem get_or_create_tags_attach_mono (specs : List String) (u : Nat) :
    ∀ r s, ∀ i ∈ r.tags, i ∈ (get_or_create_tags specs r u s).1.tags := by
  induction specs with
  | nil => intro r s i hi; exact hi
  | cons n ns ih =>
      intro r s i hi
      rw [get_or_create_tags_cons]
      exact ih _ _ i (m2mAdd_mono _ hi)

theorem get_or_create_ingredients_attach_mono (specs : List String) (u : Nat) :
    ∀ r s, ∀ i ∈ r.ingredients,
      i ∈ (get_or_create_ingredients specs r u s).1.ingredients := by
  induction specs with
  | nil => intro r s i hi; exact hi
  | cons n ns ih =>
      intro r s i hi
      rw [get_or_create_ingredients_cons]
      exact ih _ _ i (m2mAdd_mono _ hi)

/-- No spec is silently dropped: every name of the input list resolves to a
tag of the acting user that is present in the final store and attached to
the recipe. -/
theorem get_or_create_tags_no_drop (specs : List String) (u : Nat) :
    ∀ r s, ∀ m ∈ specs, ∃ t ∈ (get_or_create_tags specs r u s).2.tags,
      t.user = u ∧ t.name = m ∧ t.id ∈ (get_or_create_tags specs r u s).1.tags := by
  induction specs with
  | nil => intro r s m hm; cases hm
  | cons n ns ih =>
      intro r s m hm
      rw [get_or_create_tags_cons]
      rcases List.mem_cons.mp hm with hm | hm
      · subst hm
        refine ⟨(tagGetOrCreate s u m).1, ?_, tagGetOrCreate_user s u m,
          tagGetOrCreate_name s u m, ?_⟩
        · exact get_or_create_tags_store_mono ns u _ _ _ (tagGetOrCreate_mem s u m)
        · exact get_or_create_tags_attach_mono ns u _ _ _ (m2mAdd_self _ _)
      · exact ih _ _ m hm

theorem get_or_create_ingredients_no_drop (specs : List String) (u : Nat) :
    ∀ r s, ∀ m ∈ specs, ∃ t ∈ (get_or_create_ingredients specs r u s).2.ingredients,
      t.user = u ∧ t.name = m
        ∧ t.id ∈ (get_or_create_ingredients specs r u s).1.ingredients := by
  induction specs with
  | nil => intro r s m hm; cases hm
  | cons n ns ih =>
      intro r s m hm
      rw [get_or_create_ingredients_cons]
      rcases List.mem_cons.mp hm with hm | hm
      · subst hm
        refine ⟨(ingredientGetOrCreate s u m).1, ?_, ingredientGetOrCreate_user s u m,
          ingredientGetOrCreate_name s u m, ?_⟩
        · exact get_or_create_ingredients_store_mono ns u _ _ _
            (ingredientGetOrCreate_mem s u m)
        · exact get_or_create_ingredients_attach_mono ns u _ _ _ (m2mAdd_self _ _)
      · exact ih _ _ m hm

/-- Every id attached after tag reconciliation belongs to a tag of the
acting user present in the final store, provided the ids attached before
did. -/
theorem get_or_create_tags_attach_owner (specs : List String) (u : Nat) :
    ∀ r s, (∀ i ∈ r.tags, ∃ t ∈ s.tags, t.id = i ∧ t.user = u) →
      ∀ i ∈ (get_or_create_tags specs r u s).1.tags,
        ∃ t ∈ (get_or_create_tags specs r u s).2.tags, t.id = i ∧ t.user = u := by
  induction specs with
  | nil => intro r s h i hi; exact h i hi
  | cons n ns ih =>
      intro r s h i hi
      rw [get_or_create_tags_cons] at hi ⊢
      refine ih _ _ ?_ i hi
      intro j hj
      rcases mem_m2mAdd.mp hj with hj | hj
      · obtain ⟨t, ht, hti, htu⟩ := h j hj
        exact ⟨t, tagGetOrCreate_tags_mono s u n t ht, hti, htu⟩
      · exact ⟨(tagGetOrCreate s u n).1, tagGetOrCreate_mem s u n, hj.symm,
          tagGetOrCreate_user s u n⟩

theorem get_or_create_ingredients_attach_owner (specs : List String) (u : Nat) :
    ∀ r s, (∀ i ∈ r.ingredients, ∃ t ∈ s.ingredients, t.id = i ∧ t.user = u) →
      ∀ i ∈ (get_or_create_ingredients specs r u s).1.ingredients,
        ∃ t ∈ (get_or_create_ingredients specs r u s).2.ingredients,
          t.id = i ∧ t.user = u := by
  induction specs with
  | nil => intro r s h i hi; exact h i hi
  | cons n ns ih =>
      intro r s h i hi
      rw [get_or_create_ingredients_cons] at hi ⊢
      refine ih _ _ ?_ i hi
      intro j hj
      rcases mem_m2mAdd.mp hj with hj | hj
      · obtain ⟨t, ht, hti, htu⟩ := h j hj
        exact ⟨t, ingredientGetOrCreate_mono s u n t ht, hti, htu⟩
      · exact ⟨(ingredientGetOrCreate s u n).1, ingredientGetOrCreate_mem s u n,
          hj.symm, ingredientGetOrCreate_user s u n⟩

/-- Attachment preserves distinctness of the relation. -/
theorem get_or_create_tags_nodup (specs : List String) (u : Nat) :
    ∀ r s, r.tags.Nodup → (get_or_create_tags specs r u s).1.tags.Nodup := by
  induction specs with
  | nil => intro r s h; exact h
  | cons n ns ih =>
      intro r s h
      rw [get_or_create_tags_cons]
      exact ih _ _ (m2mAdd_nodup h)

theorem get_or_create_ingredients_nodup (specs : List String) (u : Nat) :
    ∀ r s, r.ingredients.Nodup →
      (get_or_create_ingredients specs r u s).1.ingredients.Nodup := by
  induction specs with
  | nil => intro r s h; exact h
  | cons n ns ih =>
      intro r s h
      rw [get_or_create_ingredients_cons]
      exact ih _ _ (m2mAdd_nodup h)

/-- The store evolution of the fold is independent of the recipe it
decorates. -/
theorem get_or_create_tags_store_indep (specs : List String) (u : Nat) :
    ∀ r r' s, (get_or_create_tags specs r u s).2 = (get_or_create_tags specs r' u s).2 := by
  induction specs with
  | nil => intro r r' s; rfl
  | cons n ns ih =>
      intro r r' s
      rw [get_or_create_tags_cons, get_or_create_tags_cons]
      exact ih _ _ _

theorem get_or_create_ingredients_store_indep (specs : List String) (u : Nat) :
    ∀ r r' s,
      (get_or_create_ingredients specs r u s).2
        = (get_or_create_ingredients specs r' u s).2 := by
  induction specs with
  | nil => intro r r' s; rfl
  | cons n ns ih =>
      intro r r' s
      rw [get_or_create_ingredients_cons, get_or_create_ingredients_cons]
      exact ih _ _ _

/-- The attached tag set after the fold only depends on the tag set the
fold starts from (not on the other recipe fields). -/
theorem get_or_create_tags_tags_eq (specs : List String) (u : Nat) :
    ∀ r r' s, r.tags = r'.tags →
      (get_or_create_tags specs r u s).1.tags
        = (get_or_create_tags specs r' u s).1.tags := by
  induction specs with
  | nil => intro r r' s h; exact h
  | cons n ns ih =>
      intro r r' s h
      rw [get_or_create_tags_cons, get_or_create_tags_cons]
      exact ih _ _ _ (by simp [h])

theorem get_or_create_ingredients_ing_eq (specs : List String) (u : Nat) :
    ∀ r r' s, r.ingredients = r'.ingredients →
      (get_or_create_ingredients specs r u s).1.ingredients
        = (get_or_create_ingredients specs r' u s).1.ingredients := by
  induction specs with
  | nil => intro r r' s h; exact h
  | cons n ns ih =>
      intro r r' s h
      rw [get_or_create_ingredients_cons, get_or_create_ingredients_cons]
      exact ih _ _ _ (by simp [h])

/-- The attached ingredient set after the fold only depends on the starting
ingredient set and the store. -/
theorem get_or_create_ingredients_ing_eq2 (specs : List String) (u : Nat)
    (r r' : Recipe) (s s' : Store) (h : r.ingredients = r'.ingredients)
    (hs : s = s') :
    (get_or_create_ingredients specs r u s).1.ingredients
      = (get_or_create_ingredients specs r' u s').1.ingredients := by
  subst hs
  exact get_or_create_ingredients_ing_eq specs u r r' s h

theorem get_or_create_tags_single (n : String) (r : Recipe) (u : Nat) (s : Store) :
    get_or_create_tags [n] r u s
      = ({ r with tags := m2mAdd r.tags (tagGetOrCreate s u n).1.id },
         (tagGetOrCreate s u n).2) := rfl

theorem get_or_create_ingredients_single (n : String) (r : Recipe) (u : Nat)
    (s : Store) :
    get_or_create_ingredients [n] r u s
      = ({ r with ingredients := m2mAdd r.ingredients (ingredientGetOrCreate s u n).1.id },
         (ingredientGetOrCreate s u n).2) := rfl

/-- Reprocessing the same name against the state left by its first
processing changes nothing: the existing Tag (same id) is reused. -/
theorem get_or_create_tags_idem (n : String) (r : Recipe) (u : Nat) (s : Store) :
    get_or_create_tags [n]
        { r with tags := m2mAdd r.tags (tagGetOrCreate s u n).1.id } u
        (tagGetOrCreate s u n).2
      = get_or_create_tags [n] r u s := by
  simp only [get_or_create_tags_single, tagGetOrCreate_twice]
  rw [m2mAdd_eq_of_mem (m2mAdd_self r.tags (tagGetOrCreate s u n).1.id)]

theorem get_or_create_ingredients_idem (n : String) (r : Recipe) (u : Nat)
    (s : Store) :
    get_or_create_ingredients [n]
        { r with ingredients := m2mAdd r.ingredients (ingredientGetOrCreate s u n).1.id } u
        (ingredientGetOrCreate s u n).2
      = get_or_create_ingredients [n] r u s := by
  simp only [get_or_create_ingredients_single, ingredientGetOrCreate_twice]
  rw [m2mAdd_eq_of_mem (m2mAdd_self r.ingredients (ingredientGetOrCreate s u n).1.id)]

/-- A second sequential call with the same name for the same user is a
no-op on both the recipe and the store. -/
theorem get_or_create_tags_seq (n : String) (r : Recipe) (u : Nat) (s : Store) :
    get_or_create_tags [n] (get_or_create_tags [n] r u s).1 u
        (get_or_create_tags [n] r u s).2
      = get_or_create_tags [n] r u s := by
  have h1 : (get_or_create_tags [n] r u s).1
      = { r with tags := m2mAdd r.tags (tagGetOrCreate s u n).1.id } := rfl
  have h2 : (get_or_create_tags [n] r u s).2 = (tagGetOrCreate s u n).2 := rfl
  rw [h1, h2, get_or_create_tags_idem]

theorem get_or_create_ingredients_seq (n : String) (r : Recipe) (u : Nat)
    (s : Store) :
    get_or_create_ingredients [n] (get_or_create_ingredients [n] r u s).1 u
        (get_or_create_ingredients [n] r u s).2
      = get_or_create_ingredients [n] r u s := by
  have h1 : (get_or_create_ingredients [n] r u s).1
      = { r with ingredients := m2mAdd r.ingredients (ingredientGetOrCreate s u n).1.id } := rfl
  have h2 : (get_or_create_ingredients [n] r u s).2
      = (ingredientGetOrCreate s u n).2 := rfl
  rw [h1, h2, get_or_create_ingredients_idem]

/-- Duplicate names inside one input list resolve to the same Tag: the
second occurrence changes nothing. -/
theorem get_or_create_tags_dup (n : String) (r : Recipe) (u : Nat) (s : Store) :
    get_or_create_tags [n, n] r u s = get_or_create_tags [n] r u s := by
  rw [get_or_create_tags_cons, get_or_create_tags_idem]

theorem get_or_create_ingredients_dup (n : String) (r : Recipe) (u : Nat)
    (s : Store) :
    get_or_create_ingredients [n, n] r u s = get_or_create_ingredients [n] r u s := by
  rw [get_or_create_ingredients_cons, get_or_create_ingredients_idem]

theorem get_or_create_tags_fst_ingredients (specs : List String) (u : Nat)
    (r : Recipe) (s : Store) :
    (get_or_create_tags specs r u s).1.ingredients = r.ingredients := by
  obtain ⟨ids, h⟩ := get_or_create_tags_shape specs u r s
  rw [h]

theorem get_or_create_tags_fst_user (specs : List String) (u : Nat)
    (r : Recipe) (s : Store) :
    (get_or_create_tags specs r u s).1.user = r.user := by
  obtain ⟨ids, h⟩ := get_or_create_tags_shape specs u r s
  rw [h]

theorem get_or_create_tags_fst_id (specs : List String) (u : Nat)
    (r : Recipe) (s : Store) :
    (get_or_create_tags specs r u s).1.id = r.id := by
  obtain ⟨ids, h⟩ := get_or_create_tags_shape specs u r s
  rw [h]

theorem get_or_create_ingredients_fst_tags (specs : List String) (u : Nat)
    (r : Recipe) (s : Store) :
    (get_or_create_ingredients specs r u s).1.tags = r.tags := by
  obtain ⟨ids, h⟩ := get_or_create_ingredients_shape specs u r s
  rw [h]

theorem get_or_create_ingredients_fst_user (specs : List String) (u : Nat)
    (r : Recipe) (s : Store) :
    (get_or_create_ingredients specs r u s).1.user = r.user := by
  obtain ⟨ids, h⟩ := get_or_create_ingredients_shape specs u r s
  rw [h]

theorem get_or_create_ingredients_fst_id (specs : List String) (u : Nat)
    (r : Recipe) (s : Store) :
    (get_or_create_ingredients specs r u s).1.id = r.id := by
  obtain ⟨ids, h⟩ := get_or_create_ingredients_shape specs u r s
  rw [h]

end RecipeSerializer

theorem applyScalars_tags (r : Recipe) (vd : ValidatedData) :
    (applyScalars r vd).tags = r.tags := rfl

theorem applyScalars_ingredients (r : Recipe) (vd : ValidatedData) :
    (applyScalars r vd).ingredients = r.ingredients := rfl

theorem applyScalars_user (r : Recipe) (vd : ValidatedData) :
    (applyScalars r vd).user = r.user := rfl

theorem applyScalars_id (r : Recipe) (vd : ValidatedData) :
    (applyScalars r vd).id = r.id := rfl

open RecipeSerializer in
/-- C1: `updateRecipe` leaves the tag set untouched when the `tags` key is
absent; when the key is present it clears the set first (the result is
independent of the prior tag set), so `tags: []` always yields the empty
tag set.  The identical rule holds for `ingredients`. -/
theorem update_tags_key_semantics (inst : Recipe) (vd : ValidatedData)
    (u : Nat) (s : Store) :
    (vd.tags = none → (RecipeSerializer.update inst vd u s).1.tags = inst.tags)
    ∧ (vd.tags = some [] → (RecipeSerializer.update inst vd u s).1.tags = [])
    ∧ (vd.tags.isSome = true → ∀ prior : List Nat,
        (RecipeSerializer.update { inst with tags := prior } vd u s).1.tags
          = (RecipeSerializer.update inst vd u s).1.tags)
    ∧ (vd.ingredients = none →
        (RecipeSerializer.update inst vd u s).1.ingredients = inst.ingredients)
    ∧ (vd.ingredients = some [] →
        (RecipeSerializer.update inst vd u s).1.ingredients = [])
    ∧ (vd.ingredients.isSome = true → ∀ prior : List Nat,
        (RecipeSerializer.update { inst with ingredients := prior } vd u s).1.ingredients
          = (RecipeSerializer.update inst vd u s).1.ingredients) := by
  refine ⟨?_, ?_, ?_, ?_, ?_, ?_⟩
  · intro h
    cases hI : vd.ingredients with
    | none => simp [RecipeSerializer.update, h, hI, applyScalars_tags]
    | some gs =>
        simp only [RecipeSerializer.update, h, hI, applyScalars_tags,
          get_or_create_ingredients_fst_tags]
  · intro h
    cases hI : vd.ingredients with
    | none =>
        simp [RecipeSerializer.update, h, hI, applyScalars_tags,
          get_or_create_tags_nil]
    | some gs =>
        simp only [RecipeSerializer.update, h, hI, get_or_create_tags_nil,
          applyScalars_tags, get_or_create_ingredients_fst_tags]
  · intro h prior
    obtain ⟨ts, hts⟩ := Option.isSome_iff_exists.mp h
    cases hI : vd.ingredients with
    | none =>
        simp only [RecipeSerializer.update, hts, hI, applyScalars_tags]
    | some gs =>
        simp only [RecipeSerializer.update, hts, hI, applyScalars_tags,
          get_or_create_ingredients_fst_tags]
  · intro h
    cases hT : vd.tags with
    | none => simp [RecipeSerializer.update, h, hT, applyScalars_ingredients]
    | some ts =>
        simp only [RecipeSerializer.update, h, hT, applyScalars_ingredients,
          get_or_create_tags_fst_ingredients]
  · intro h
    cases hT : vd.tags with
    | none =>
        simp [RecipeSerializer.update, h, hT, applyScalars_ingredients,
          get_or_create_ingredients_nil]
    | some ts =>
        simp [RecipeSerializer.update, h, hT, get_or_create_ingredients_nil,
          applyScalars_ingredients]
  · intro h prior
    obtain ⟨gs, hgs⟩ := Option.isSome_iff_exists.mp h
    cases hT : vd.tags with
    | none =>
        simp only [RecipeSerializer.update, hgs, hT, applyScalars_ingredients]
    | some ts =>
        simp only [RecipeSerializer.update, hgs, hT, applyScalars_ingredients]
        exact get_or_create_ingredients_ing_eq2 gs u _ _ _ _ rfl
          (get_or_create_tags_store_indep ts u _ _ s)

open RecipeSerializer in
/-- C2: `reconcileTags` is idempotent per (user, name): a second sequential
call with the same name is a no-op, a duplicate name within one list is a
no-op, at most one Tag row is created in total, the resolved tag is
attached exactly once, and no spec of any input list is silently dropped.
Same for `reconcileIngredients`. -/
theorem reconcile_idempotent (u : Nat) (n : String) (r : Recipe) (s : Store)
    (hr : r.tags.Nodup) (hri : r.ingredients.Nodup) :
    get_or_create_tags [n] (get_or_create_tags [n] r u s).1 u
        (get_or_create_tags [n] r u s).2
      = get_or_create_tags [n] r u s
    ∧ get_or_create_tags [n, n] r u s = get_or_create_tags [n] r u s
    ∧ (get_or_create_tags [n] r u s).2.tags.length ≤ s.tags.length + 1
    ∧ (∃ t ∈ (get_or_create_tags [n] r u s).2.tags, t.user = u ∧ t.name = n
         ∧ (get_or_create_tags [n] r u s).1.tags.count t.id = 1)
    ∧ (∀ specs (r' : Recipe) (s' : Store), ∀ m ∈ specs,
        ∃ t ∈ (get_or_create_tags specs r' u s').2.tags, t.user = u ∧ t.name = m
          ∧ t.id ∈ (get_or_create_tags specs r' u s').1.tags)
    ∧ get_or_create_ingredients [n] (get_or_create_ingredients [n] r u s).1 u
        (get_or_create_ingredients [n] r u s).2
      = get_or_create_ingredients [n] r u s
    ∧ get_or_create_ingredients [n, n] r u s = get_or_create_ingredients [n] r u s
    ∧ (get_or_create_ingredients [n] r u s).2.ingredients.length
        ≤ s.ingredients.length + 1
    ∧ (∃ t ∈ (get_or_create_ingredients [n] r u s).2.ingredients,
         t.user = u ∧ t.name = n
           ∧ (get_or_create_ingredients [n] r u s).1.ingredients.count t.id = 1)
    ∧ (∀ specs (r' : Recipe) (s' : Store), ∀ m ∈ specs,
        ∃ t ∈ (get_or_create_ingredients specs r' u s').2.ingredients,
          t.user = u ∧ t.name = m
            ∧ t.id ∈ (get_or_create_ingredients specs r' u s').1.ingredients) := by
  refine ⟨get_or_create_tags_seq n r u s, get_or_create_tags_dup n r u s, ?_, ?_,
    fun specs r' s' => get_or_create_tags_no_drop specs u r' s',
    get_or_create_ingredients_seq n r u s, get_or_create_ingredients_dup n r u s,
    ?_, ?_,
    fun specs r' s' => get_or_create_ingredients_no_drop specs u r' s'⟩
  · rw [get_or_create_tags_single]
    exact tagGetOrCreate_len s u n
  · obtain ⟨t, ht, htu, htn, hti⟩ := get_or_create_tags_no_drop [n] u r s n
      (List.mem_singleton.mpr rfl)
    refine ⟨t, ht, htu, htn, List.count_eq_one_of_mem ?_ hti⟩
    exact get_or_create_tags_nodup [n] u r s hr
  · rw [get_or_create_ingredients_single]
    exact ingredientGetOrCreate_len s u n
  · obtain ⟨t, ht, htu, htn, hti⟩ := get_or_create_ingredients_no_drop [n] u r s n
      (List.mem_singleton.mpr rfl)
    refine ⟨t, ht, htu, htn, List.count_eq_one_of_mem ?_ hti⟩
    exact get_or_create_ingredients_nodup [n] u r s hri

open RecipeSerializer in
/-- Closed witness for `reconcile_idempotent` at a concrete input. -/
theorem reconcile_idempotent_witness :
    ([] : List Nat).Nodup ∧
      (get_or_create_tags ["Dinner"]
          (get_or_create_tags ["Dinner"]
            { id := 1, user := 7, title := "t", times_in_minutes := 5, price := 450,
              description := "", link := "", tags := [], ingredients := [] } 7
            { tags := [], ingredients := [], recipes := [], nextTagId := 0,
              nextIngredientId := 0, nextRecipeId := 0 }).1 7
          (get_or_create_tags ["Dinner"]
            { id := 1, user := 7, title := "t", times_in_minutes := 5, price := 450,
              description := "", link := "", tags := [], ingredients := [] } 7
            { tags := [], ingredients := [], recipes := [], nextTagId := 0,
              nextIngredientId := 0, nextRecipeId := 0 }).2
        = get_or_create_tags ["Dinner"]
            { id := 1, user := 7, title := "t", times_in_minutes := 5, price := 450,
              description := "", link := "", tags := [], ingredients := [] } 7
            { tags := [], ingredients := [], recipes := [], nextTagId := 0,
              nextIngredientId := 0, nextRecipeId := 0 }) :=
  ⟨List.nodup_nil,
    (reconcile_idempotent 7 "Dinner"
      { id := 1, user := 7, title := "t", times_in_minutes := 5, price := 450,
        description := "", link := "", tags := [], ingredients := [] }
      { tags := [], ingredients := [], recipes := [], nextTagId := 0,
        nextIngredientId := 0, nextRecipeId := 0 }
      List.nodup_nil List.nodup_nil).1⟩

open RecipeSerializer in
/-- C5: the owning user can never be set or changed through the payload:
the created recipe's owner is the authenticated acting user and an update
leaves the owner unchanged, even when the raw payload carries a `user`
field. -/
theorem owner_not_settable (raw : RawRecipePayload) (u : Nat) (s : Store)
    (inst : Recipe) :
    (performCreate raw u s).1.user = u
      ∧ (performUpdate inst raw u s).1.user = inst.user := by
  constructor
  · show (RecipeSerializer.create (toInternalValue raw) u s).1.user = u
    simp only [RecipeSerializer.create, get_or_create_ingredients_fst_user,
      get_or_create_tags_fst_user]
  · show (RecipeSerializer.update inst (toInternalValue raw) u s).1.user = inst.user
    cases hT : (toInternalValue raw).tags <;> cases hI : (toInternalValue raw).ingredients <;>
      simp only [RecipeSerializer.update, hT, hI, applyScalars_user,
        get_or_create_ingredients_fst_user, get_or_create_tags_fst_user]

/-! ### The ownership invariant (C3) -/

/-- A single recipe row only references tags/ingredients owned by the
recipe's owner, relative to the store's entity tables. -/
def rowInv (s : Store) (x : Recipe) : Prop :=
  (∀ i ∈ x.tags, ∃ t ∈ s.tags, t.id = i ∧ t.user = x.user)
  ∧ (∀ i ∈ x.ingredients, ∃ g ∈ s.ingredients, g.id = i ∧ g.user = x.user)

/-- The spec's ownership invariant: every Recipe in the store only
references Tag/Ingredient entities owned by the Recipe's own user. -/
def ownInv (s : Store) : Prop := ∀ x ∈ s.recipes, rowInv s x

theorem saveRecipe_tags (s : Store) (r : Recipe) : (saveRecipe s r).tags = s.tags := rfl

theorem saveRecipe_ingredients (s : Store) (r : Recipe) :
    (saveRecipe s r).ingredients = s.ingredients := rfl

theorem mem_saveRecipe {s : Store} {r x : Recipe}
    (hx : x ∈ (saveRecipe s r).recipes) : x = r ∨ x ∈ s.recipes := by
  unfold saveRecipe at hx
  simp only [List.mem_map] at hx
  obtain ⟨y, hy, hxy⟩ := hx
  by_cases hid : y.id == r.id
  · rw [if_pos hid] at hxy
    exact Or.inl hxy.symm
  · rw [if_neg hid] at hxy
    exact Or.inr (hxy ▸ hy)

theorem rowInv_congr {s s' : Store} {x : Recipe} (ht : s.tags = s'.tags)
    (hg : s.ingredients = s'.ingredients) (h : rowInv s x) : rowInv s' x := by
  obtain ⟨h1, h2⟩ := h
  exact ⟨fun i hi => ht ▸ h1 i hi, fun i hi => hg ▸ h2 i hi⟩

theorem saveRecipe_ownInv {s' : Store} {r' : Recipe}
    (hrows : ∀ x ∈ s'.recipes, rowInv s' x) (hnew : rowInv s' r') :
    ownInv (saveRecipe s' r') := by
  intro x hx
  rcases mem_saveRecipe hx with rfl | hx'
  · exact rowInv_congr rfl rfl hnew
  · exact rowInv_congr rfl rfl (hrows x hx')

open RecipeSerializer in
/-- `createRecipe` preserves the ownership invariant. -/
theorem create_preserves_ownInv (vd : ValidatedData) (u : Nat) (s : Store)
    (h : ownInv s) : ownInv (RecipeSerializer.create vd u s).2 := by
  apply saveRecipe_ownInv
  · intro x hx
    rw [(get_or_create_ingredients_store_frame _ u _ _).2,
      (get_or_create_tags_store_frame _ u _ _).2] at hx
    constructor
    · intro i hi
      rcases List.mem_append.mp hx with hx' | hx'
      · obtain ⟨t, htm, hti, htu⟩ := (h x hx').1 i hi
        refine ⟨t, ?_, hti, htu⟩
        rw [(get_or_create_ingredients_store_frame _ u _ _).1]
        exact get_or_create_tags_store_mono _ u _ _ t htm
      · rw [List.mem_singleton.mp hx'] at hi
        exact absurd hi (List.not_mem_nil i)
    · intro i hi
      rcases List.mem_append.mp hx with hx' | hx'
      · obtain ⟨g, hgm, hgi, hgu⟩ := (h x hx').2 i hi
        refine ⟨g, ?_, hgi, hgu⟩
        apply get_or_create_ingredients_store_mono _ u _ _ g
        rw [(get_or_create_tags_store_frame _ u _ _).1]
        exact hgm
      · rw [List.mem_singleton.mp hx'] at hi
        exact absurd hi (List.not_mem_nil i)
  · constructor
    · intro i hi
      rw [get_or_create_ingredients_fst_tags] at hi
      obtain ⟨t, htm, hti, htu⟩ :=
        get_or_create_tags_attach_owner (vd.tags.getD []) u _ _
          (fun j hj => absurd hj (List.not_mem_nil j)) i hi
      refine ⟨t, ?_, hti, ?_⟩
      · rw [(get_or_create_ingredients_store_frame _ u _ _).1]
        exact htm
      · rw [get_or_create_ingredients_fst_user, get_or_create_tags_fst_user]
        exact htu
    · intro i hi
      obtain ⟨g, hgm, hgi, hgu⟩ :=
        get_or_create_ingredients_attach_owner (vd.ingredients.getD []) u _ _
          (fun j hj => by
            rw [get_or_create_tags_fst_ingredients] at hj
            exact absurd hj (List.not_mem_nil j)) i hi
      refine ⟨g, hgm, hgi, ?_⟩
      rw [get_or_create_ingredients_fst_user, get_or_create_tags_fst_user]
      exact hgu

open RecipeSerializer in
/-- `updateRecipe`, called from the view on a recipe of the acting user,
preserves the ownership invariant. -/
theorem update_preserves_ownInv (vd : ValidatedData) (u : Nat) (s : Store)
    (inst : Recipe) (h : ownInv s) (hin : inst ∈ s.recipes)
    (hu : inst.user = u) : ownInv (RecipeSerializer.update inst vd u s).2 := by
  cases hT : vd.tags with
  | none =>
      cases hI : vd.ingredients with
      | none =>
          simp only [RecipeSerializer.update, hT, hI]
          exact saveRecipe_ownInv h (h inst hin)
      | some gs =>
          simp only [RecipeSerializer.update, hT, hI]
          apply saveRecipe_ownInv
          · intro x hx
            simp only [get_or_create_ingredients_snd_recipes] at hx
            refine ⟨fun i hi => ?_, fun i hi => ?_⟩
            · obtain ⟨t, htm, hti, htu⟩ := (h x hx).1 i hi
              refine ⟨t, ?_, hti, htu⟩
              simp only [get_or_create_ingredients_snd_tags]
              exact htm
            · obtain ⟨g, hgm, hgi, hgu⟩ := (h x hx).2 i hi
              exact ⟨g, get_or_create_ingredients_store_mono _ u _ _ g hgm, hgi, hgu⟩
          · refine ⟨fun i hi => ?_, fun i hi => ?_⟩
            · simp only [applyScalars_tags, get_or_create_ingredients_fst_tags] at hi
              obtain ⟨t, htm, hti, htu⟩ := (h inst hin).1 i hi
              refine ⟨t, ?_, hti, ?_⟩
              · simp only [get_or_create_ingredients_snd_tags]
                exact htm
              · simp only [applyScalars_user, get_or_create_ingredients_fst_user]
                exact htu
            · simp only [applyScalars_ingredients] at hi
              obtain ⟨g, hgm, hgi, hgu⟩ :=
                get_or_create_ingredients_attach_owner gs u _ _
                  (fun j hj => absurd hj (List.not_mem_nil j)) i hi
              refine ⟨g, hgm, hgi, ?_⟩
              simp only [applyScalars_user, get_or_create_ingredients_fst_user, hu]
              exact hgu
  | some ts =>
      cases hI : vd.ingredients with
      | none =>
          simp only [RecipeSerializer.update, hT, hI]
          apply saveRecipe_ownInv
          · intro x hx
            simp only [get_or_create_tags_snd_recipes] at hx
            refine ⟨fun i hi => ?_, fun i hi => ?_⟩
            · obtain ⟨t, htm, hti, htu⟩ := (h x hx).1 i hi
              exact ⟨t, get_or_create_tags_store_mono _ u _ _ t htm, hti, htu⟩
            · obtain ⟨g, hgm, hgi, hgu⟩ := (h x hx).2 i hi
              refine ⟨g, ?_, hgi, hgu⟩
              simp only [get_or_create_tags_snd_ingredients]
              exact hgm
          · refine ⟨fun i hi => ?_, fun i hi => ?_⟩
            · simp only [applyScalars_tags] at hi
              obtain ⟨t, htm, hti, htu⟩ :=
                get_or_create_tags_attach_owner ts u _ _
                  (fun j hj => absurd hj (List.not_mem_nil j)) i hi
              refine ⟨t, htm, hti, ?_⟩
              simp only [applyScalars_user, get_or_create_tags_fst_user, hu]
              exact htu
            · simp only [applyScalars_ingredients, get_or_create_tags_fst_ingredients] at hi
              obtain ⟨g, hgm, hgi, hgu⟩ := (h inst hin).2 i hi
              refine ⟨g, ?_, hgi, ?_⟩
              · simp only [get_or_create_tags_snd_ingredients]
                exact hgm
              · simp only [applyScalars_user, get_or_create_tags_fst_user]
                exact hgu
      | some gs =>
          simp only [RecipeSerializer.update, hT, hI]
          apply saveRecipe_ownInv
          · intro x hx
            simp only [get_or_create_ingredients_snd_recipes,
              get_or_create_tags_snd_recipes] at hx
            refine ⟨fun i hi => ?_, fun i hi => ?_⟩
            · obtain ⟨t, htm, hti, htu⟩ := (h x hx).1 i hi
              refine ⟨t, ?_, hti, htu⟩
              simp only [get_or_create_ingredients_snd_tags]
              exact get_or_create_tags_store_mono _ u _ _ t htm
            · obtain ⟨g, hgm, hgi, hgu⟩ := (h x hx).2 i hi
              refine ⟨g, ?_, hgi, hgu⟩
              apply get_or_create_ingredients_store_mono _ u _ _ g
              simp only [get_or_create_tags_snd_ingredients]
              exact hgm
          · refine ⟨fun i hi => ?_, fun i hi => ?_⟩
            · simp only [applyScalars_tags, get_or_create_ingredients_fst_tags] at hi
              obtain ⟨t, htm, hti, htu⟩ :=
                get_or_create_tags_attach_owner ts u _ _
                  (fun j hj => absurd hj (List.not_mem_nil j)) i hi
              refine ⟨t, ?_, hti, ?_⟩
              · simp only [get_or_create_ingredients_snd_tags]
                exact htm
              · simp only [applyScalars_user, get_or_create_ingredients_fst_user,
                  get_or_create_tags_fst_user, hu]
                exact htu
            · simp only [applyScalars_ingredients] at hi
              obtain ⟨g, hgm, hgi, hgu⟩ :=
                get_or_create_ingredients_attach_owner gs u _ _
                  (fun j hj => absurd hj (List.not_mem_nil j)) i hi
              refine ⟨g, hgm, hgi, ?_⟩
              simp only [applyScalars_user, get_or_create_ingredients_fst_user,
                get_or_create_tags_fst_user, hu]
              exact hgu

open RecipeSerializer in
/-- Two different users reconciling the same tag name end with two distinct
Tag entities, one owned by each. -/
theorem reconcile_two_users_distinct (A B : Nat) (hAB : A ≠ B)
    (rA rB : Recipe) (sd : Store) :
    ∃ tA ∈ (get_or_create_tags ["Dinner"] rB B
        (get_or_create_tags ["Dinner"] rA A sd).2).2.tags,
      ∃ tB ∈ (get_or_create_tags ["Dinner"] rB B
          (get_or_create_tags ["Dinner"] rA A sd).2).2.tags,
        tA.user = A ∧ tA.name = "Dinner" ∧ tB.user = B ∧ tB.name = "Dinner"
          ∧ tA ≠ tB := by
  obtain ⟨tA, hA, hAu, hAn, _⟩ :=
    get_or_create_tags_no_drop ["Dinner"] A rA sd "Dinner" (List.mem_singleton.mpr rfl)
  obtain ⟨tB, hB, hBu, hBn, _⟩ :=
    get_or_create_tags_no_drop ["Dinner"] B rB
      (get_or_create_tags ["Dinner"] rA A sd).2 "Dinner" (List.mem_singleton.mpr rfl)
  refine ⟨tA, ?_, tB, hB, hAu, hAn, hBu, hBn, ?_⟩
  · exact get_or_create_tags_store_mono ["Dinner"] B rB _ tA hA
  · intro hEq
    apply hAB
    rw [← hAu, hEq, hBu]

/-- A fixed sample recipe used by concrete witnesses. -/
def sampleRecipe : Recipe :=
  { id := 9, user := 1, title := "Pongal", times_in_minutes := 60, price := 450,
    description := "", link := "", tags := [], ingredients := [] }

/-- A fixed sample store containing `sampleRecipe`, used by witnesses. -/
def sampleStore : Store :=
  { tags := [], ingredients := [], recipes := [sampleRecipe], nextTagId := 0,
    nextIngredientId := 0, nextRecipeId := 10 }

theorem sampleStore_ownInv : ownInv sampleStore := by
  intro x hx
  rw [List.mem_singleton.mp hx]
  exact ⟨fun i hi => absurd hi (List.not_mem_nil i),
    fun i hi => absurd hi (List.not_mem_nil i)⟩

open RecipeSerializer in
/-- C3: every `createRecipe` / `updateRecipe` preserves the ownership
invariant (reconciliation scopes lookups and creations to the acting
user), and two different users reconciling "Dinner" obtain two distinct
Tag entities, one owned by each. -/
theorem ownership_invariant_preserved (vd : ValidatedData) (u : Nat)
    (s : Store) (inst : Recipe) (h : ownInv s) (hin : inst ∈ s.recipes)
    (hu : inst.user = u) (A B : Nat) (hAB : A ≠ B) (rA rB : Recipe)
    (sd : Store) :
    ownInv (RecipeSerializer.create vd u s).2
    ∧ ownInv (RecipeSerializer.update inst vd u s).2
    ∧ (∃ tA ∈ (get_or_create_tags ["Dinner"] rB B
          (get_or_create_tags ["Dinner"] rA A sd).2).2.tags,
        ∃ tB ∈ (get_or_create_tags ["Dinner"] rB B
            (get_or_create_tags ["Dinner"] rA A sd).2).2.tags,
          tA.user = A ∧ tA.name = "Dinner" ∧ tB.user = B ∧ tB.name = "Dinner"
            ∧ tA ≠ tB) :=
  ⟨create_preserves_ownInv vd u s h,
   update_preserves_ownInv vd u s inst h hin hu,
   reconcile_two_users_distinct A B hAB rA rB sd⟩

open RecipeSerializer in
/-- Closed witness for `ownership_invariant_preserved` at a concrete
input. -/
theorem ownership_invariant_preserved_witness :
    ownInv (RecipeSerializer.create { tags := some ["Indian"] } 1 sampleStore).2
    ∧ ownInv (RecipeSerializer.update sampleRecipe { tags := some ["Indian"] } 1
        sampleStore).2
    ∧ (∃ tA ∈ (get_or_create_tags ["Dinner"] sampleRecipe 2
          (get_or_create_tags ["Dinner"] sampleRecipe 1 sampleStore).2).2.tags,
        ∃ tB ∈ (get_or_create_tags ["Dinner"] sampleRecipe 2
            (get_or_create_tags ["Dinner"] sampleRecipe 1 sampleStore).2).2.tags,
          tA.user = 1 ∧ tA.name = "Dinner" ∧ tB.user = 2 ∧ tB.name = "Dinner"
            ∧ tA ≠ tB) :=
  ownership_invariant_preserved { tags := some ["Indian"] } 1 sampleStore
    sampleRecipe sampleStore_ownInv (List.mem_singleton.mpr rfl) rfl 1 2
    (by decide) sampleRecipe sampleRecipe sampleStore

/-- Closed witness for `update_tags_key_semantics` at a concrete input:
a payload with `tags: []` empties a previously nonempty tag set, while an
absent `ingredients` key leaves the ingredient set untouched. -/
theorem update_tags_key_semantics_witness :
    (RecipeSerializer.update
        { sampleRecipe with tags := [4, 7], ingredients := [3] }
        { tags := some [] } 1 sampleStore).1.tags = []
    ∧ (RecipeSerializer.update
        { sampleRecipe with tags := [4, 7], ingredients := [3] }
        { tags := some [] } 1 sampleStore).1.ingredients = [3] :=
  ⟨(update_tags_key_semantics
      { sampleRecipe with tags := [4, 7], ingredients := [3] }
      { tags := some [] } 1 sampleStore).2.1 rfl,
   (update_tags_key_semantics
      { sampleRecipe with tags := [4, 7], ingredients := [3] }
      { tags := some [] } 1 sampleStore).2.2.2.1 rfl⟩

/-! ### Lemmas: the recipe queryset (C4, C6, C9) -/

/-- Spec-side reading of an optional tag id filter: absent means no
restriction, present means "references at least one tag in the set". -/
def tagFilterMatch : Option (List Int) → Recipe → Prop
  | none, _ => True
  | some ids, r => ∃ t : Nat, t ∈ r.tags ∧ (t : Int) ∈ ids

/-- Spec-side reading of an optional ingredient id filter. -/
def ingFilterMatch : Option (List Int) → Recipe → Prop
  | none, _ => True
  | some ids, r => ∃ t : Nat, t ∈ r.ingredients ∧ (t : Int) ∈ ids

theorem mem_joinTagFilter {rs : List Recipe} {ids : List Int} {r : Recipe} :
    r ∈ joinTagFilter rs ids ↔ r ∈ rs ∧ ∃ t : Nat, t ∈ r.tags ∧ (t : Int) ∈ ids := by
  unfold joinTagFilter
  simp only [List.mem_flatMap, List.mem_map, List.mem_filter]
  constructor
  · rintro ⟨r', hr', ⟨t, ht, rfl⟩⟩
    exact ⟨hr', t, ht.1, by simpa using ht.2⟩
  · rintro ⟨hr, t, ht, hid⟩
    exact ⟨r, hr, t, ⟨ht, by simpa using hid⟩, rfl⟩

theorem mem_joinIngredientFilter {rs : List Recipe} {ids : List Int} {r : Recipe} :
    r ∈ joinIngredientFilter rs ids ↔ r ∈ rs ∧ ∃ t : Nat, t ∈ r.ingredients ∧ (t : Int) ∈ ids := by
  unfold joinIngredientFilter
  simp only [List.mem_flatMap, List.mem_map, List.mem_filter]
  constructor
  · rintro ⟨r', hr', ⟨t, ht, rfl⟩⟩
    exact ⟨hr', t, ht.1, by simpa using ht.2⟩
  · rintro ⟨hr, t, ht, hid⟩
    exact ⟨r, hr, t, ⟨ht, by simpa using hid⟩, rfl⟩

/-- Membership characterization of `RecipeViewSet.get_queryset`: exactly
the acting user's recipes passing both (independently ANDed) id filters. -/
theorem mem_recipeQuerysetPure {recipes : List Recipe} {u : Nat}
    {tagIds ingIds : Option (List Int)} {r : Recipe} :
    r ∈ recipeQuerysetPure recipes u tagIds ingIds
      ↔ r ∈ recipes ∧ r.user = u ∧ tagFilterMatch tagIds r
          ∧ ingFilterMatch ingIds r := by
  unfold recipeQuerysetPure
  cases tagIds <;> cases ingIds <;>
    simp [List.mem_dedup, List.mem_filter, mem_joinTagFilter,
      mem_joinIngredientFilter, tagFilterMatch, ingFilterMatch, and_assoc] <;>
    tauto

theorem recipeQuerysetPure_nodup_ids (recipes : List Recipe) (u : Nat)
    (tagIds ingIds : Option (List Int))
    (hids : (recipes.map Recipe.id).Nodup) :
    ((recipeQuerysetPure recipes u tagIds ingIds).map Recipe.id).Nodup := by
  apply List.Nodup.map_on
  · intro x hx y hy hxy
    exact List.inj_on_of_nodup_map hids (mem_recipeQuerysetPure.mp hx).1
      (mem_recipeQuerysetPure.mp hy).1 hxy
  · exact List.nodup_dedup _

theorem recipeQuerysetPure_sorted (recipes : List Recipe) (u : Nat)
    (tagIds ingIds : Option (List Int))
    (hids : (recipes.map Recipe.id).Nodup) :
    (recipeQuerysetPure recipes u tagIds ingIds).Pairwise
      (fun a b => b.id < a.id) := by
  have hle : (recipeQuerysetPure recipes u tagIds ingIds).Pairwise recipeIdDesc := by
    apply List.Pairwise.sublist (List.dedup_sublist _)
    exact List.sorted_insertionSort recipeIdDesc _
  have hne : (recipeQuerysetPure recipes u tagIds ingIds).Pairwise
      (fun a b => a.id ≠ b.id) :=
    List.pairwise_map.mp (recipeQuerysetPure_nodup_ids recipes u tagIds ingIds hids)
  exact (hle.and hne).imp
    (fun h => Nat.lt_of_le_of_ne h.1 (fun hh => h.2 hh.symm))

/-- C4: `listRecipes` returns exactly the acting user's recipes passing the
(independently ANDed) tag/ingredient id filters, each exactly once, ordered
by strictly descending id. -/
theorem recipe_listing_spec (s : Store) (u : Nat)
    (tagIds ingIds : Option (List Int))
    (hids : (s.recipes.map Recipe.id).Nodup) :
    (∀ r, r ∈ recipeQuerysetPure s.recipes u tagIds ingIds
        ↔ r ∈ s.recipes ∧ r.user = u ∧ tagFilterMatch tagIds r
            ∧ ingFilterMatch ingIds r)
    ∧ ((recipeQuerysetPure s.recipes u tagIds ingIds).map Recipe.id).Nodup
    ∧ (recipeQuerysetPure s.recipes u tagIds ingIds).Pairwise
        (fun a b => b.id < a.id) :=
  ⟨fun _ => mem_recipeQuerysetPure,
   recipeQuerysetPure_nodup_ids s.recipes u tagIds ingIds hids,
   recipeQuerysetPure_sorted s.recipes u tagIds ingIds hids⟩

/-- A store with three recipes (one of another user, one referencing two
filter ids) used by concrete witnesses. -/
def filterStore : Store :=
  { tags := [], ingredients := [],
    recipes :=
      [ { id := 1, user := 1, title := "a", times_in_minutes := 1, price := 100,
          description := "", link := "", tags := [10, 11], ingredients := [20] },
        { id := 2, user := 1, title := "b", times_in_minutes := 2, price := 200,
          description := "", link := "", tags := [11], ingredients := [] },
        { id := 3, user := 2, title := "c", times_in_minutes := 3, price := 300,
          description := "", link := "", tags := [10], ingredients := [20] } ],
    nextTagId := 30, nextIngredientId := 30, nextRecipeId := 4 }

/-- Closed witness for `recipe_listing_spec` at a concrete input. -/
theorem recipe_listing_spec_witness :
    (∀ r, r ∈ recipeQuerysetPure filterStore.recipes 1 (some [10, 11]) none
        ↔ r ∈ filterStore.recipes ∧ r.user = 1 ∧ tagFilterMatch (some [10, 11]) r
            ∧ ingFilterMatch none r)
    ∧ ((recipeQuerysetPure filterStore.recipes 1 (some [10, 11]) none).map
        Recipe.id).Nodup
    ∧ (recipeQuerysetPure filterStore.recipes 1 (some [10, 11]) none).Pairwise
        (fun a b => b.id < a.id) :=
  recipe_listing_spec filterStore 1 (some [10, 11]) none (by decide)

/-- C9: supplying `tags` (or `ingredients`) as the empty string on the
recipe list endpoint behaves exactly like omitting the parameter — the
empty string is falsy, so no id filter is applied. -/
theorem empty_filter_param_like_absent (s : Store) (u : Nat) (p : Option String) :
    recipeGetQueryset s u (some "") p = recipeGetQueryset s u none p
    ∧ recipeGetQueryset s u p (some "") = recipeGetQueryset s u p none := by
  constructor <;> simp [recipeGetQueryset, optParamIds]

/-- C10: the `assigned_only` parameter is interpreted by `int()` conversion
followed by truthiness: a non-integer token raises (no structured 400), any
nonzero integer string behaves exactly like "1", and an absent parameter
defaults to the filter being off. -/
theorem assigned_only_parsing (s : Store) (u : Nat) :
    parseAssignedOnly (some "true") = none
    ∧ tagGetQueryset s u (some "true") = none
    ∧ ingredientGetQueryset s u (some "true") = none
    ∧ parseAssignedOnly none = some false
    ∧ parseAssignedOnly (some "0") = some false
    ∧ parseAssignedOnly (some "1") = some true
    ∧ parseAssignedOnly (some "2") = some true
    ∧ parseAssignedOnly (some "-1") = some true
    ∧ (∀ (str : String) (n : Int), parsePyInt str = some n → n ≠ 0 →
        parseAssignedOnly (some str) = some true) := by
  have htrue : parseAssignedOnly (some "true") = none := by decide
  refine ⟨htrue, ?_, ?_, by decide, by decide, by decide, by decide, by decide, ?_⟩
  · simp [tagGetQueryset, htrue]
  · simp [ingredientGetQueryset, htrue]
  · intro str n hp hn
    simp [parseAssignedOnly, hp, hn]

/-- Closed witness for `assigned_only_parsing` at a concrete input. -/
theorem assigned_only_parsing_witness :
    parsePyInt "2" = some 2 ∧ (2 : Int) ≠ 0
      ∧ parseAssignedOnly (some "2") = some true :=
  ⟨by decide, by decide,
   (assigned_only_parsing sampleStore 1).2.2.2.2.2.2.2.2 "2" 2 (by decide) (by decide)⟩

/-! ### Lemmas: e-mail normalization (C7) -/

theorem lowerCP_idem (n : Nat) : lowerCP (lowerCP n) = lowerCP n := by
  by_cases h : 65 ≤ n ∧ n ≤ 90
  · have h1 : lowerCP n = n + 32 := if_pos h
    rw [h1]
    show (if 65 ≤ n + 32 ∧ n + 32 ≤ 90 then n + 32 + 32 else n + 32) = n + 32
    rw [if_neg (by omega)]
  · have h1 : lowerCP n = n := if_neg h
    rw [h1]
    exact h1

theorem lowerCP_eq_64 {n : Nat} (h : lowerCP n = 64) : n = 64 := by
  unfold lowerCP at h
  by_cases h' : 65 ≤ n ∧ n ≤ 90
  · rw [if_pos h'] at h; omega
  · rwa [if_neg h'] at h

theorem pyIsSpace_lowerCP {n : Nat} (h : pyIsSpace n = false) :
    pyIsSpace (lowerCP n) = false := by
  unfold lowerCP
  split
  · rename_i h'
    simp only [pyIsSpace, Bool.or_eq_false_iff, beq_eq_false_iff_ne]
    omega
  · exact h

theorem splitAtFirst_append {c : Nat} {a b : List Nat} (h : c ∉ a) :
    splitAtFirst c (a ++ c :: b) = some (a, b) := by
  induction a with
  | nil => simp [splitAtFirst]
  | cons x xs ih =>
      have hx : x ≠ c := fun hh => h (hh ▸ List.mem_cons_self x xs)
      rw [List.cons_append, splitAtFirst, if_neg hx,
        ih (fun hh => h (List.mem_cons_of_mem x hh))]
      rfl

theorem splitAtFirst_none {c : Nat} {l : List Nat} (h : c ∉ l) :
    splitAtFirst c l = none := by
  induction l with
  | nil => rfl
  | cons x xs ih =>
      have hx : x ≠ c := fun hh => h (hh ▸ List.mem_cons_self x xs)
      rw [splitAtFirst, if_neg hx, ih (fun hh => h (List.mem_cons_of_mem x hh))]
      rfl

theorem splitAtFirst_some {c : Nat} : ∀ {l : List Nat} {p : List Nat × List Nat},
    splitAtFirst c l = some p → l = p.1 ++ c :: p.2 ∧ c ∉ p.1 := by
  intro l
  induction l with
  | nil => intro p h; cases h
  | cons x xs ih =>
      intro p h
      by_cases hx : x = c
      · rw [splitAtFirst, if_pos hx] at h
        injection h with h'
        subst h'
        exact ⟨by rw [hx]; rfl, List.not_mem_nil c⟩
      · rw [splitAtFirst, if_neg hx] at h
        cases hs : splitAtFirst c xs with
        | none => rw [hs] at h; cases h
        | some q =>
            rw [hs] at h
            obtain ⟨hq1, hq2⟩ := ih hs
            injection h with h'
            subst h'
            refine ⟨by rw [List.cons_append]; exact congrArg (x :: ·) hq1, ?_⟩
            intro hm
            rcases List.mem_cons.mp hm with hm | hm
            · exact hx hm.symm
            · exact hq2 hm

theorem rsplit1_append {c : Nat} {n d : List Nat} (h : c ∉ d) :
    rsplit1 c (n ++ c :: d) = some (n, d) := by
  unfold rsplit1
  have hrev : (n ++ c :: d).reverse = d.reverse ++ c :: n.reverse := by
    simp
  rw [hrev, splitAtFirst_append (by simpa using h)]
  simp

theorem rsplit1_none {c : Nat} {l : List Nat} (h : c ∉ l) :
    rsplit1 c l = none := by
  unfold rsplit1
  rw [splitAtFirst_none (by simpa using h)]
  rfl

theorem rsplit1_some {c : Nat} {l : List Nat} {nd : List Nat × List Nat}
    (h : rsplit1 c l = some nd) : l = nd.1 ++ c :: nd.2 ∧ c ∉ nd.2 := by
  unfold rsplit1 at h
  cases hs : splitAtFirst c l.reverse with
  | none => rw [hs] at h; cases h
  | some p =>
      rw [hs] at h
      obtain ⟨hp1, hp2⟩ := splitAtFirst_some hs
      injection h with h'
      subst h'
      constructor
      · have h2 := congrArg List.reverse hp1
        simpa using h2
      · simpa using hp2

theorem head?_dropWhile {p : Nat → Bool} : ∀ {l : List Nat} {a : Nat},
    (l.dropWhile p).head? = some a → p a = false := by
  intro l
  induction l with
  | nil => intro a h; cases h
  | cons x xs ih =>
      intro a h
      rw [List.dropWhile_cons] at h
      by_cases hx : p x
      · rw [if_pos hx] at h
        exact ih h
      · rw [if_neg hx] at h
        injection h with h'
        rw [← h']
        simpa using hx

theorem getLast?_cons_ne {x : Nat} {l : List Nat} (h : l ≠ []) :
    (x :: l).getLast? = l.getLast? := by
  cases l with
  | nil => exact absurd rfl h
  | cons y ys => rfl

theorem getLast?_dropWhile {p : Nat → Bool} : ∀ {l : List Nat},
    l.dropWhile p ≠ [] → (l.dropWhile p).getLast? = l.getLast? := by
  intro l
  induction l with
  | nil => intro h; exact absurd rfl h
  | cons x xs ih =>
      intro h
      rw [List.dropWhile_cons] at h ⊢
      by_cases hx : p x
      · rw [if_pos hx] at h ⊢
        rw [ih h]
        have hxs : xs ≠ [] := by
          intro hh
          rw [hh] at h
          exact h rfl
        exact (getLast?_cons_ne hxs).symm
      · rw [if_neg hx] at h ⊢

theorem pyStrip_head {l : List Nat} {a : Nat} (h : (pyStrip l).head? = some a) :
    pyIsSpace a = false := by
  unfold pyStrip at h
  rw [List.head?_reverse] at h
  have hne : (l.dropWhile pyIsSpace).reverse.dropWhile pyIsSpace ≠ [] := by
    intro hh
    rw [hh] at h
    cases h
  rw [getLast?_dropWhile hne, List.getLast?_reverse] at h
  exact head?_dropWhile h

theorem pyStrip_last {l : List Nat} {a : Nat} (h : (pyStrip l).getLast? = some a) :
    pyIsSpace a = false := by
  unfold pyStrip at h
  rw [List.getLast?_reverse] at h
  exact head?_dropWhile h

theorem dropWhile_eq_self_of_head {p : Nat → Bool} {l : List Nat}
    (h : ∀ a, l.head? = some a → p a = false) : l.dropWhile p = l := by
  cases l with
  | nil => rfl
  | cons x xs =>
      rw [List.dropWhile_cons, if_neg]
      simp [h x rfl]

theorem pyStrip_eq_self {l : List Nat}
    (h1 : ∀ a, l.head? = some a → pyIsSpace a = false)
    (h2 : ∀ a, l.getLast? = some a → pyIsSpace a = false) : pyStrip l = l := by
  unfold pyStrip
  rw [dropWhile_eq_self_of_head h1, dropWhile_eq_self_of_head
    (fun a ha => h2 a (by rwa [List.head?_reverse] at ha))]
  exact List.reverse_reverse l

theorem pyLower_idem (l : List Nat) : pyLower (pyLower l) = pyLower l := by
  unfold pyLower
  rw [List.map_map]
  exact List.map_congr_left (fun a _ => lowerCP_idem a)

theorem not_mem_pyLower {d : List Nat} (h : 64 ∉ d) : 64 ∉ pyLower d := by
  intro hm
  obtain ⟨x, hx, hxe⟩ := List.mem_map.mp hm
  exact h (lowerCP_eq_64 hxe ▸ hx)

/-- The normalized address is a fixed point of stripping: its first and
last code points are never whitespace. -/
theorem pyStrip_normalized {email : List Nat} {nd : List Nat × List Nat}
    (h : rsplit1 64 (pyStrip email) = some nd) :
    pyStrip (nd.1 ++ 64 :: pyLower nd.2) = nd.1 ++ 64 :: pyLower nd.2 := by
  obtain ⟨hdec, _⟩ := rsplit1_some h
  apply pyStrip_eq_self
  · intro a ha
    cases hn : nd.1 with
    | nil =>
        rw [hn, List.nil_append, List.head?_cons] at ha
        injection ha with ha'
        rw [← ha']
        rfl
    | cons x xs =>
        rw [hn, List.cons_append, List.head?_cons] at ha
        injection ha with ha'
        have hh : (pyStrip email).head? = some x := by
          rw [hdec, hn, List.cons_append, List.head?_cons]
        rw [← ha']
        exact pyStrip_head hh
  · intro a ha
    cases hd2 : nd.2 with
    | nil =>
        rw [hd2] at ha
        have : (nd.1 ++ 64 :: pyLower []).getLast? = some 64 := by
          rw [List.getLast?_append_of_ne_nil _ (by simp)]
          rfl
        rw [this] at ha
        injection ha with ha'
        rw [← ha']
        rfl
    | cons y ys =>
        rw [hd2] at ha
        have hpl : pyLower (y :: ys) ≠ [] := by simp [pyLower]
        rw [List.getLast?_append_of_ne_nil _ (by simp),
          getLast?_cons_ne hpl] at ha
        unfold pyLower at ha
        rw [List.getLast?_map] at ha
        cases hL : (y :: ys).getLast? with
        | none => rw [hL] at ha; cases ha
        | some L =>
            rw [hL] at ha
            injection ha with ha'
            have hh : (pyStrip email).getLast? = some L := by
              rw [hdec, hd2, List.getLast?_append_of_ne_nil _ (by simp),
                getLast?_cons_ne (by simp)]
              exact hL
            rw [← ha']
            exact pyIsSpace_lowerCP (pyStrip_last hh)

/-- C7 (amended): user creation stores `normalize_email`, which strips the
address and lower-cases only the domain part after the last `@` — the
local part is preserved, an address without `@` is returned unchanged —
and normalization is idempotent. -/
theorem email_normalization (email : List Nat) :
    (email ≠ [] → create_user email = Except.ok (normalize_email email))
    ∧ normalize_email (normalize_email email) = normalize_email email
    ∧ (∀ name dom : List Nat, 64 ∉ dom → pyStrip email = name ++ 64 :: dom →
        normalize_email email = name ++ 64 :: pyLower dom)
    ∧ (64 ∉ pyStrip email → normalize_email email = email) := by
  refine ⟨?_, ?_, ?_, ?_⟩
  · intro h
    unfold create_user
    rw [if_neg h]
  · cases h : rsplit1 64 (pyStrip email) with
    | none =>
        have h0 : normalize_email email = email := by
          unfold normalize_email
          rw [h]
        rw [h0]
        exact h0
    | some nd =>
        obtain ⟨hdec, hnotin⟩ := rsplit1_some h
        have h0 : normalize_email email = nd.1 ++ 64 :: pyLower nd.2 := by
          unfold normalize_email
          rw [h]
        rw [h0]
        have h1 : rsplit1 64 (pyStrip (nd.1 ++ 64 :: pyLower nd.2))
            = some (nd.1, pyLower nd.2) := by
          rw [pyStrip_normalized h]
          exact rsplit1_append (not_mem_pyLower hnotin)
        show normalize_email (nd.1 ++ 64 :: pyLower nd.2) = nd.1 ++ 64 :: pyLower nd.2
        unfold normalize_email
        rw [h1]
        show nd.1 ++ 64 :: pyLower (pyLower nd.2) = nd.1 ++ 64 :: pyLower nd.2
        rw [pyLower_idem]
  · intro name dom hnd hdec
    unfold normalize_email
    rw [hdec, rsplit1_append hnd]
  · intro h
    unfold normalize_email
    rw [rsplit1_none h]

/-- Counterexample to C7 as stated: on the repository's own test vector
`"Test4@Test.coM"` the stored e-mail keeps the upper-case local part, so
the address is *not* entirely lower-cased. -/
theorem email_normalization_counterexample :
    create_user (strCodes "Test4@Test.coM")
      = Except.ok (strCodes "Test4@test.com")
    ∧ strCodes "Test4@test.com" ≠ pyLower (strCodes "Test4@Test.coM") :=
  ⟨rfl, by decide⟩

/-- Closed witness for `email_normalization` at a concrete input. -/
theorem email_normalization_witness :
    strCodes "Test4@Test.coM" ≠ []
    ∧ create_user (strCodes "Test4@Test.coM")
        = Except.ok (normalize_email (strCodes "Test4@Test.coM"))
    ∧ normalize_email (normalize_email (strCodes "Test4@Test.coM"))
        = normalize_email (strCodes "Test4@Test.coM")
    ∧ normalize_email (strCodes "Test4@Test.coM")
        = strCodes "Test4" ++ 64 :: pyLower (strCodes "Test.coM") :=
  ⟨by decide,
   (email_normalization (strCodes "Test4@Test.coM")).1 (by decide),
   (email_normalization (strCodes "Test4@Test.coM")).2.1,
   (email_normalization (strCodes "Test4@Test.coM")).2.2.1
     (strCodes "Test4") (strCodes "Test.coM") (by decide) (by decide)⟩

/-! ### Lemmas: the Tag/Ingredient listing (C8) -/

theorem mem_assignedJoin {α : Type} {aid : α → Nat} {rel : Recipe → List Nat}
    {recipes : List Recipe} {attrs : List α} {a : α} :
    a ∈ assignedJoin aid rel recipes attrs
      ↔ a ∈ attrs ∧ ∃ r ∈ recipes, aid a ∈ rel r := by
  unfold assignedJoin
  simp only [List.mem_flatMap, List.mem_map, List.mem_filter]
  constructor
  · rintro ⟨a', ha', r, hr, rfl⟩
    exact ⟨ha', r, hr.1, by simpa using hr.2⟩
  · rintro ⟨ha, r, hr, hm⟩
    exact ⟨a, ha, r, ⟨hr, by simpa using hm⟩, rfl⟩

/-- Membership characterization of `BaseRecipeAttrViewSet.get_queryset`:
the acting user's entities, restricted — when `assigned_only` is on — to
those referenced by at least one recipe of any user. -/
theorem mem_attrQuerysetPure {α : Type} [DecidableEq α] {aid : α → Nat}
    {aname : α → String} {auser : α → Nat} {rel : Recipe → List Nat}
    {recipes : List Recipe} {attrs : List α} {u : Nat} {b : Bool} {a : α} :
    a ∈ attrQuerysetPure aid aname auser rel recipes attrs u b
      ↔ a ∈ attrs ∧ auser a = u ∧ (b = true → ∃ r ∈ recipes, aid a ∈ rel r) := by
  unfold attrQuerysetPure
  cases b with
  | false => simp [List.mem_dedup, List.mem_filter]
  | true =>
      simp [List.mem_dedup, List.mem_filter, mem_assignedJoin]
      tauto

theorem attrQuerysetPure_nodup {α : Type} [DecidableEq α] (aid : α → Nat)
    (aname : α → String) (auser : α → Nat) (rel : Recipe → List Nat)
    (recipes : List Recipe) (attrs : List α) (u : Nat) (b : Bool)
    (hids : (attrs.map aid).Nodup) :
    ((attrQuerysetPure aid aname auser rel recipes attrs u b).map aid).Nodup := by
  apply List.Nodup.map_on
  · intro x hx y hy hxy
    exact List.inj_on_of_nodup_map hids (mem_attrQuerysetPure.mp hx).1
      (mem_attrQuerysetPure.mp hy).1 hxy
  · exact List.nodup_dedup _

theorem attrQuerysetPure_sorted {α : Type} [DecidableEq α] (aid : α → Nat)
    (aname : α → String) (auser : α → Nat) (rel : Recipe → List Nat)
    (recipes : List Recipe) (attrs : List α) (u : Nat) (b : Bool) :
    (attrQuerysetPure aid aname auser rel recipes attrs u b).Pairwise
      (fun x y => aname y ≤ aname x) := by
  haveI h1 : IsTotal α (fun x y => aname y ≤ aname x) :=
    ⟨fun x y => le_total (aname y) (aname x)⟩
  haveI h2 : IsTrans α (fun x y => aname y ≤ aname x) :=
    ⟨fun _ _ _ hxy hyz => le_trans hyz hxy⟩
  apply List.Pairwise.sublist (List.dedup_sublist _)
  exact List.sorted_insertionSort _ _

/-- C8: the Tag and Ingredient listings return exactly the acting user's
entities, de-duplicated and ordered by descending name; with
`assigned_only` on, they are restricted to entities referenced by at least
one recipe of ANY user (the join is not scoped to the acting user's
recipes).  The last two conjuncts tie the flag to the raw parameter
(absent means off, "1" means on). -/
theorem attr_listing_spec (s : Store) (u : Nat) (b : Bool)
    (htag : (s.tags.map Tag.id).Nodup)
    (hing : (s.ingredients.map Ingredient.id).Nodup) :
    (∀ t : Tag, t ∈ attrQuerysetPure Tag.id Tag.name Tag.user Recipe.tags
          s.recipes s.tags u b
        ↔ t ∈ s.tags ∧ t.user = u ∧ (b = true → ∃ r ∈ s.recipes, t.id ∈ r.tags))
    ∧ ((attrQuerysetPure Tag.id Tag.name Tag.user Recipe.tags s.recipes
        s.tags u b).map Tag.id).Nodup
    ∧ (attrQuerysetPure Tag.id Tag.name Tag.user Recipe.tags s.recipes
        s.tags u b).Pairwise (fun x y => Tag.name y ≤ Tag.name x)
    ∧ (∀ g : Ingredient, g ∈ attrQuerysetPure Ingredient.id Ingredient.name
          Ingredient.user Recipe.ingredients s.recipes s.ingredients u b
        ↔ g ∈ s.ingredients ∧ g.user = u
            ∧ (b = true → ∃ r ∈ s.recipes, g.id ∈ r.ingredients))
    ∧ ((attrQuerysetPure Ingredient.id Ingredient.name Ingredient.user
        Recipe.ingredients s.recipes s.ingredients u b).map Ingredient.id).Nodup
    ∧ (attrQuerysetPure Ingredient.id Ingredient.name Ingredient.user
        Recipe.ingredients s.recipes s.ingredients u b).Pairwise
        (fun x y => Ingredient.name y ≤ Ingredient.name x)
    ∧ tagGetQueryset s u none
        = some (attrQuerysetPure Tag.id Tag.name Tag.user Recipe.tags
            s.recipes s.tags u false)
    ∧ tagGetQueryset s u (some "1")
        = some (attrQuerysetPure Tag.id Tag.name Tag.user Recipe.tags
            s.recipes s.tags u true) := by
  refine ⟨fun t => mem_attrQuerysetPure,
    attrQuerysetPure_nodup _ _ _ _ _ _ _ _ htag,
    attrQuerysetPure_sorted _ _ _ _ _ _ _ _,
    fun g => mem_attrQuerysetPure,
    attrQuerysetPure_nodup _ _ _ _ _ _ _ _ hing,
    attrQuerysetPure_sorted _ _ _ _ _ _ _ _, rfl, ?_⟩
  have h1 : parseAssignedOnly (some "1") = some true := by decide
  simp [tagGetQueryset, h1]

/-- A store where a recipe of user 2 references a tag owned by user 1,
exercising the unscoped "assigned" join; used by the C8 witness. -/
def attrStore : Store :=
  { tags := [ { id := 1, name := "x", user := 1 },
              { id := 2, name := "y", user := 1 },
              { id := 3, name := "z", user := 2 } ],
    ingredients := [ { id := 5, name := "p", user := 1 } ],
    recipes := [ { id := 1, user := 2, title := "r", times_in_minutes := 1,
                   price := 100, description := "", link := "",
                   tags := [1], ingredients := [5] } ],
    nextTagId := 4, nextIngredientId := 6, nextRecipeId := 2 }

/-- Closed witness for `attr_listing_spec` at a concrete input. -/
theorem attr_listing_spec_witness :
    (∀ t : Tag, t ∈ attrQuerysetPure Tag.id Tag.name Tag.user Recipe.tags
          attrStore.recipes attrStore.tags 1 true
        ↔ t ∈ attrStore.tags ∧ t.user = 1
            ∧ (true = true → ∃ r ∈ attrStore.recipes, t.id ∈ r.tags))
    ∧ ((attrQuerysetPure Tag.id Tag.name Tag.user Recipe.tags attrStore.recipes
        attrStore.tags 1 true).map Tag.id).Nodup
    ∧ (attrQuerysetPure Tag.id Tag.name Tag.user Recipe.tags attrStore.recipes
        attrStore.tags 1 true).Pairwise (fun x y => Tag.name y ≤ Tag.name x)
    ∧ (∀ g : Ingredient, g ∈ attrQuerysetPure Ingredient.id Ingredient.name
          Ingredient.user Recipe.ingredients attrStore.recipes
          attrStore.ingredients 1 true
        ↔ g ∈ attrStore.ingredients ∧ g.user = 1
            ∧ (true = true → ∃ r ∈ attrStore.recipes, g.id ∈ r.ingredients))
    ∧ ((attrQuerysetPure Ingredient.id Ingredient.name Ingredient.user
        Recipe.ingredients attrStore.recipes attrStore.ingredients 1
        true).map Ingredient.id).Nodup
    ∧ (attrQuerysetPure Ingredient.id Ingredient.name Ingredient.user
        Recipe.ingredients attrStore.recipes attrStore.ingredients 1
        true).Pairwise (fun x y => Ingredient.name y ≤ Ingredient.name x)
    ∧ tagGetQueryset attrStore 1 none
        = some (attrQuerysetPure Tag.id Tag.name Tag.user Recipe.tags
            attrStore.recipes attrStore.tags 1 false)
    ∧ tagGetQueryset attrStore 1 (some "1")
        = some (attrQuerysetPure Tag.id Tag.name Tag.user Recipe.tags
            attrStore.recipes attrStore.tags 1 true) :=
  attr_listing_spec attrStore 1 true (by decide) (by decide)

/-- C6: for every entity id owned by a different user, every detail
operation — Recipe GET/PUT/PATCH/DELETE, Tag PUT/PATCH/DELETE, Ingredient
PUT/PATCH/DELETE — misses the user-scoped queryset, so it fails as 404
(there is no 403 path) and leaves the store unchanged; in particular a
DELETE returns 404 and the row still exists afterwards. -/
theorem cross_user_detail_not_found (s : Store) (u : Nat) (r : Recipe)
    (t : Tag) (g : Ingredient) (vd : ValidatedData) (name? : Option String)
    (hr : r ∈ s.recipes) (hrids : (s.recipes.map Recipe.id).Nodup)
    (hru : r.user ≠ u)
    (ht : t ∈ s.tags) (htids : (s.tags.map Tag.id).Nodup) (htu : t.user ≠ u)
    (hg : g ∈ s.ingredients) (hgids : (s.ingredients.map Ingredient.id).Nodup)
    (hgu : g.user ≠ u) :
    getObject s u r.id = none
    ∧ retrieveRecipeDetail s u r.id = (404, s)
    ∧ updateRecipeDetail s u r.id vd = (404, s)
    ∧ destroyRecipe s u r.id = (404, s)
    ∧ r ∈ (destroyRecipe s u r.id).2.recipes
    ∧ tagGetObject s u t.id = none
    ∧ updateTagDetail s u t.id name? = (404, s)
    ∧ destroyTag s u t.id = (404, s)
    ∧ t ∈ (destroyTag s u t.id).2.tags
    ∧ ingredientGetObject s u g.id = none
    ∧ updateIngredientDetail s u g.id name? = (404, s)
    ∧ destroyIngredient s u g.id = (404, s)
    ∧ g ∈ (destroyIngredient s u g.id).2.ingredients := by
  have hobj : getObject s u r.id = none := by
    unfold getObject
    rw [List.find?_eq_none]
    intro x hx
    have hmem := mem_recipeQuerysetPure.mp hx
    simp only [beq_iff_eq]
    intro hxy
    exact hru (List.inj_on_of_nodup_map hrids hmem.1 hr hxy ▸ hmem.2.1)
  have htobj : tagGetObject s u t.id = none := by
    unfold tagGetObject
    rw [List.find?_eq_none]
    intro x hx
    have hmem := mem_attrQuerysetPure.mp hx
    simp only [beq_iff_eq]
    intro hxy
    exact htu (List.inj_on_of_nodup_map htids hmem.1 ht hxy ▸ hmem.2.1)
  have hgobj : ingredientGetObject s u g.id = none := by
    unfold ingredientGetObject
    rw [List.find?_eq_none]
    intro x hx
    have hmem := mem_attrQuerysetPure.mp hx
    simp only [beq_iff_eq]
    intro hxy
    exact hgu (List.inj_on_of_nodup_map hgids hmem.1 hg hxy ▸ hmem.2.1)
  have hdr : destroyRecipe s u r.id = (404, s) := by
    unfold destroyRecipe
    rw [hobj]
  have hdt : destroyTag s u t.id = (404, s) := by
    unfold destroyTag
    rw [htobj]
  have hdg : destroyIngredient s u g.id = (404, s) := by
    unfold destroyIngredient
    rw [hgobj]
  refine ⟨hobj, ?_, ?_, hdr, by rw [hdr]; exact hr, htobj, ?_, hdt,
    by rw [hdt]; exact ht, hgobj, ?_, hdg, by rw [hdg]; exact hg⟩
  · unfold retrieveRecipeDetail
    rw [hobj]
  · unfold updateRecipeDetail
    rw [hobj]
  · unfold updateTagDetail
    rw [htobj]
  · unfold updateIngredientDetail
    rw [hgobj]

/-- A fixed sample tag of user 1, used by the C6 witness. -/
def sampleTag : Tag := { id := 4, name := "t", user := 1 }

/-- A fixed sample ingredient of user 1, used by the C6 witness. -/
def sampleIngredient : Ingredient := { id := 5, name := "g", user := 1 }

/-- A store holding one recipe, one tag and one ingredient, all owned by
user 1; used by the C6 witness with acting user 2. -/
def detailStore : Store :=
  { tags := [sampleTag], ingredients := [sampleIngredient],
    recipes := [sampleRecipe], nextTagId := 6, nextIngredientId := 6,
    nextRecipeId := 10 }

/-- Closed witness for `cross_user_detail_not_found` at a concrete input. -/
theorem cross_user_detail_not_found_witness :
    getObject detailStore 2 sampleRecipe.id = none
    ∧ retrieveRecipeDetail detailStore 2 sampleRecipe.id = (404, detailStore)
    ∧ updateRecipeDetail detailStore 2 sampleRecipe.id {} = (404, detailStore)
    ∧ destroyRecipe detailStore 2 sampleRecipe.id = (404, detailStore)
    ∧ sampleRecipe ∈ (destroyRecipe detailStore 2 sampleRecipe.id).2.recipes
    ∧ tagGetObject detailStore 2 sampleTag.id = none
    ∧ updateTagDetail detailStore 2 sampleTag.id (some "n") = (404, detailStore)
    ∧ destroyTag detailStore 2 sampleTag.id = (404, detailStore)
    ∧ sampleTag ∈ (destroyTag detailStore 2 sampleTag.id).2.tags
    ∧ ingredientGetObject detailStore 2 sampleIngredient.id = none
    ∧ updateIngredientDetail detailStore 2 sampleIngredient.id (some "n")
        = (404, detailStore)
    ∧ destroyIngredient detailStore 2 sampleIngredient.id = (404, detailStore)
    ∧ sampleIngredient
        ∈ (destroyIngredient detailStore 2 sampleIngredient.id).2.ingredients :=
  cross_user_detail_not_found detailStore 2 sampleRecipe sampleTag
    sampleIngredient {} (some "n")
    (List.mem_singleton.mpr rfl) (by decide) (by decide)
    (List.mem_singleton.mpr rfl) (by decide) (by decide)
    (List.mem_singleton.mpr rfl) (by decide) (by decide)

